import Mathlib

/-!
# v4l2-dbg: register name resolution, register dumps and chip selection

A shallow embedding of `utils/v4l2-dbg.cpp`.

Conventions of the embedding:

* a C string is a `List Char`, one `Char` per byte, without the terminating NUL;
* `unsigned long` is `w` bits wide (`w = 32` on ILP32, `w = 64` on LP64) and is a `Nat`
  reduced modulo `2 ^ w`; `unsigned long long` and `__u64` are 64 bits wide, `unsigned`
  and `__u32` are 32 bits wide;
* an `int` that is only ever tested against zero or stored into a `__u32` field
  (`match_chip`) is kept as its 32-bit pattern;
* system calls are functions of an explicit device state, and everything the program
  prints or asks the driver is recorded in a list of events.
-/

namespace V4l2Dbg

/-! ## C library functions used by the program -/

/-- The function `tolower` of the C locale. -/
def tolower (c : Char) : Char :=
  if 'A' ≤ c ∧ c ≤ 'Z' then Char.ofNat (c.toNat + 32) else c

/-- The function `isspace` of the C locale. -/
def isspace (c : Char) : Bool :=
  c = ' ' || (9 ≤ c.toNat && c.toNat ≤ 13)

/-- The function `isdigit`. -/
def isdigit (c : Char) : Bool :=
  decide ('0' ≤ c) && decide (c ≤ '9')

/-- The function `strcasecmp`: the sign of the first difference of the two strings after
`tolower`; POSIX fixes only the sign of a non-zero result. -/
def strcasecmp : List Char → List Char → Int
  | [], [] => 0
  | [], _ :: _ => -1
  | _ :: _, [] => 1
  | a :: as, b :: bs =>
    if tolower a = tolower b then strcasecmp as bs
    else if tolower a < tolower b then -1 else 1

/-- The value of a digit or letter in `strtoul`, before the comparison with the base. -/
def digitVal (c : Char) : Option Nat :=
  if '0' ≤ c ∧ c ≤ '9' then some (c.toNat - 48)
  else if 'a' ≤ c ∧ c ≤ 'z' then some (c.toNat - 97 + 10)
  else if 'A' ≤ c ∧ c ≤ 'Z' then some (c.toNat - 65 + 10)
  else none

/-- The digit loop of `strtoul`: the value of the longest prefix of digits below `base`. -/
def strto_digits (base : Nat) : List Char → Nat → Nat
  | [], acc => acc
  | c :: cs, acc =>
    match digitVal c with
    | some d => if d < base then strto_digits base cs (acc * base + d) else acc
    | none => acc

/-- The functions `strtoul(s, NULL, 0)` (for `bits = w`) and `strtoull(s, NULL, 0)`
(for `bits = 64`): leading white space, an optional sign, base 16 after `0x`, base 8 after
`0`, base 10 otherwise; no digits give 0, an overflow gives the largest value, a minus
sign negates modulo `2 ^ bits`. -/
def strtoul_base0 (bits : Nat) (s : List Char) : Nat :=
  let s1 := s.dropWhile isspace
  let (neg, s2) :=
    match s1 with
    | '-' :: t => (true, t)
    | '+' :: t => (false, t)
    | _ => (false, s1)
  let (base, s3) :=
    match s2 with
    | '0' :: x :: t => if x = 'x' ∨ x = 'X' then (16, t) else (8, s2)
    | _ => (if s2.head? = some '0' then 8 else 10, s2)
  let v := strto_digits base s3 0
  if 2 ^ bits ≤ v then 2 ^ bits - 1
  else if neg then (2 ^ bits - v) % 2 ^ bits
  else v

/-- The function `strtoull(s, NULL, 0)`. -/
def strtoull (s : List Char) : Nat := strtoul_base0 64 s

/-! ## Board tables and `parse_reg` -/

/-- One entry of a register table (`struct board_regs` of the `v4l2-dbg-*.h` headers):
the address of the register and its symbolic name. -/
structure board_regs where
  reg : Nat
  name : List Char
deriving DecidableEq, Repr

/-- The `struct board_list`: driver name, length of the register prefix (the field
`prefix`, here `pfx`), the main table and the alternate table (`regs_size` and
`alt_regs_size` are the lengths of the lists). -/
structure board_list where
  name : List Char
  pfx : Nat
  regs : List board_regs
  alt_regs : List board_regs
deriving DecidableEq, Repr

/-- One of the two `for` loops of `parse_reg` over a table: the address of the first entry
whose name, or whose name after the prefix, compares equal to `reg`. The pointer
`name + prefix` is the name without its first `pfx` characters. -/
def parse_reg_table (pfx : Nat) (reg : List Char) : List board_regs → Option Nat
  | [] => none
  | e :: es =>
    if strcasecmp reg e.name = 0 ∨ strcasecmp reg (e.name.drop pfx) = 0 then some e.reg
    else parse_reg_table pfx reg es

/-- The function `parse_reg`. -/
def parse_reg (curr_bd : Option board_list) (reg : List Char) : Nat :=
  match curr_bd with
  | some bd =>
    match parse_reg_table bd.pfx reg bd.regs with
    | some a => a
    | none =>
      match parse_reg_table bd.pfx reg bd.alt_regs with
      | some a => a
      | none => strtoull reg
  | none => strtoull reg

/-! ## `print_regs` -/

/-- The `struct v4l2_register` of `linux/videodev2.h`. -/
structure v4l2_register where
  match_type : Nat
  match_chip : Nat
  reg : Nat
  val : Nat
deriving DecidableEq, Repr

/-- What `print_regs` does, in order: what it prints on `stdout`, what it prints on
`stderr`, and the system calls it makes. -/
inductive Event where
  /-- The column header printed for `stride == 4`. -/
  | header4
  /-- The column header printed for every other stride. -/
  | header1
  /-- The start of a row: `printf("\n%08lx: ", i)`. -/
  | row_start (addr : Nat)
  /-- An empty cell: `printf("%*s ", 2 * stride, "")`. -/
  | blank (width : Int)
  /-- The call `ioctl(fd, VIDIOC_DBG_G_REGISTER, reg)`. -/
  | g_register (reg : v4l2_register)
  /-- The message on `stderr` after a failed call. -/
  | g_register_failed (addr : Nat)
  /-- A cell with a value: `printf("%0*llx ", 2 * stride, reg->val)`. -/
  | value (width : Int) (val : Nat)
  /-- The call `usleep(1)`. -/
  | usleep
  /-- The final `printf("\n")`. -/
  | newline
deriving DecidableEq, Repr

/-- The `for` loop of `print_regs`. The driver is `ioctl`: from its state and the request
it gives its next state and `none` for a negative return value, or `some v` for success
with `reg->val = v`. The result is the list of events and, when the loop has ended within
`fuel` tests of its condition, the final driver state and register structure. The counter
`line` is only used modulo 32 and is kept exact; the width `2 * stride` is kept exact. -/
def print_regs_loop {σ : Type} (w : Nat) (ioctl : σ → v4l2_register → σ × Option Nat)
    (min max : Nat) (stride : Int) (mask : Nat) :
    Nat → σ → v4l2_register → Nat → Nat → List Event × Option (σ × v4l2_register)
  | 0, _, _, _, _ => ([], none)
  | fuel + 1, s, reg, i, line =>
    if i ≤ max then
      let hdr : List Event :=
        if (i &&& mask) = 0 ∧ line % 32 = 0 then
          [if stride = 4 then Event.header4 else Event.header1]
        else []
      let row : List Event := if (i &&& mask) = 0 then [Event.row_start i] else []
      let line1 := if (i &&& mask) = 0 then line + 1 else line
      let next := (((i : Int) + stride) % 2 ^ w).toNat
      if i < min then
        let r := print_regs_loop w ioctl min max stride mask fuel s reg next line1
        (hdr ++ row ++ [Event.blank (2 * stride)] ++ r.1, r.2)
      else
        let reg1 := { reg with reg := i % 2 ^ 64 }
        match ioctl s reg1 with
        | (s1, none) =>
          let r := print_regs_loop w ioctl min max stride mask fuel s1 reg1 next line1
          (hdr ++ row ++ [Event.g_register reg1, Event.g_register_failed reg1.reg,
            Event.usleep] ++ r.1, r.2)
        | (s1, some v) =>
          let reg2 := { reg1 with val := v }
          let r := print_regs_loop w ioctl min max stride mask fuel s1 reg2 next line1
          (hdr ++ row ++ [Event.g_register reg1, Event.value (2 * stride) v,
            Event.usleep] ++ r.1, r.2)
    else ([Event.newline], some (s, reg))

/-- The function `print_regs`, with `min` and `max` below `2 ^ w`. -/
def print_regs {σ : Type} (w : Nat) (ioctl : σ → v4l2_register → σ × Option Nat)
    (fuel : Nat) (s : σ) (reg : v4l2_register) (min max : Nat) (stride : Int) :
    List Event × Option (σ × v4l2_register) :=
  let mask : Nat := if stride > 1 then 0x1f else 0x0f
  print_regs_loop w ioctl min max stride mask fuel s reg (min &&& ((2 ^ w - 1) ^^^ mask)) 0

/-- The register addresses asked from the driver, in order. -/
def queried : List Event → List Nat
  | [] => []
  | Event.g_register reg :: es => reg.reg :: queried es
  | _ :: es => queried es

/-- One position of a dump: the start of a row, an empty cell, the request for one
register, a printed value. -/
inductive Slot where
  | row (addr : Nat)
  | blank
  | query (addr : Nat)
  | cell
deriving DecidableEq, Repr

/-- The address slots of a dump, in order: the row starts, the empty cells and the
requests to the driver. -/
def layout : List Event → List Slot
  | [] => []
  | Event.row_start a :: es => Slot.row a :: layout es
  | Event.blank _ :: es => Slot.blank :: layout es
  | Event.g_register reg :: es => Slot.query reg.reg :: layout es
  | _ :: es => layout es

/-- The rows as they appear on `stdout`: the row starts, the empty cells and the cells
with a value (the column headers and the final newline are left out). -/
def printed : List Event → List Slot
  | [] => []
  | Event.row_start a :: es => Slot.row a :: printed es
  | Event.blank _ :: es => Slot.blank :: printed es
  | Event.value _ _ :: es => Slot.cell :: printed es
  | _ :: es => printed es

/-- The addresses of the failure messages on `stderr`, in order. -/
def failed : List Event → List Nat
  | [] => []
  | Event.g_register_failed a :: es => a :: failed es
  | _ :: es => failed es

/-- The answers of the driver to a dump: what `ioctl` returns for the requests at the
given addresses, one after the other, when the driver state and the register structure
are passed on as `print_regs` does it (`none` is a failed request). -/
def run_driver {σ : Type} (ioctl : σ → v4l2_register → σ × Option Nat) :
    σ → v4l2_register → List Nat → List (Option Nat)
  | _, _, [] => []
  | s, reg, a :: as =>
    let reg1 := { reg with reg := a }
    match ioctl s reg1 with
    | (s1, none) => none :: run_driver ioctl s1 reg1 as
    | (s1, some v) => some v :: run_driver ioctl s1 { reg1 with val := v } as

/-! ## Constants and tables that `main` takes from other files -/

/-- The constants of `linux/videodev2.h`, `linux/i2c-id.h` and `media/v4l2-chip-ident.h`
that `main` uses; the headers are not part of the program and the constants are
parameters of the embedding. -/
structure Headers where
  V4L2_CHIP_MATCH_HOST : Nat
  V4L2_CHIP_MATCH_I2C_DRIVER : Nat
  V4L2_CHIP_MATCH_I2C_ADDR : Nat
  I2C_DRIVERID_SAA711X : Nat
  I2C_DRIVERID_SAA717X : Nat
  I2C_DRIVERID_SAA7127 : Nat
  I2C_DRIVERID_CX25840 : Nat
  I2C_DRIVERID_CS5345 : Nat
  V4L2_IDENT_NONE : Nat
  V4L2_IDENT_CX23415 : Nat
  V4L2_IDENT_CX23416 : Nat
  V4L2_IDENT_CX23418 : Nat
deriving DecidableEq, Repr

/-- The labels of the `switch` on `match_chip` are distinct (the program would not
compile otherwise), so no driver ID is 0. -/
@[reducible]
def Headers.driverids_nonzero (h : Headers) : Prop :=
  h.I2C_DRIVERID_SAA711X ≠ 0 ∧ h.I2C_DRIVERID_SAA717X ≠ 0 ∧ h.I2C_DRIVERID_SAA7127 ≠ 0 ∧
    h.I2C_DRIVERID_CX25840 ≠ 0 ∧ h.I2C_DRIVERID_CS5345 ≠ 0

/-- The identifier for "no chip" is not the identifier of one of the three host chips. -/
@[reducible]
def Headers.ident_none_distinct (h : Headers) : Prop :=
  h.V4L2_IDENT_NONE ≠ h.V4L2_IDENT_CX23415 ∧ h.V4L2_IDENT_NONE ≠ h.V4L2_IDENT_CX23416 ∧
    h.V4L2_IDENT_NONE ≠ h.V4L2_IDENT_CX23418

/-- The values of the constants in the kernel headers of the time (Linux 2.6.26). -/
def linux_headers : Headers where
  V4L2_CHIP_MATCH_HOST := 0
  V4L2_CHIP_MATCH_I2C_DRIVER := 1
  V4L2_CHIP_MATCH_I2C_ADDR := 2
  I2C_DRIVERID_SAA711X := 73
  I2C_DRIVERID_SAA717X := 80
  I2C_DRIVERID_SAA7127 := 72
  I2C_DRIVERID_CX25840 := 71
  I2C_DRIVERID_CS5345 := 96
  V4L2_IDENT_NONE := 0
  V4L2_IDENT_CX23415 := 415
  V4L2_IDENT_CX23416 := 416
  V4L2_IDENT_CX23418 := 418

/-- The `struct driverid`; the table `driverids` is defined in another file and is a
parameter of the embedding (the entries before the one with a null name). -/
structure driverid where
  name : List Char
  id : Nat
deriving DecidableEq, Repr

/-- The `struct v4l2_chip_ident` of `linux/videodev2.h`. -/
structure v4l2_chip_ident where
  match_type : Nat
  match_chip : Nat
  ident : Nat
  revision : Nat
deriving DecidableEq, Repr

/-- How the program can end before the end of `main`. -/
inductive Stop where
  /-- A message on `stderr`, then `usage()`, which prints the help and calls `exit(0)`. -/
  | usage (message : String)
  /-- A message on `stderr`, then `exit(code)`. -/
  | exit (code : Int) (message : String)
  /-- A `std::string` is assigned from a null pointer: undefined behaviour. -/
  | null_string
deriving DecidableEq, Repr

/-! ## Chip selection -/

/-- The function `parse_chip`. -/
def parse_chip (driverids : List driverid) (s : List Char) : Nat :=
  match driverids with
  | [] => 0
  | d :: ds => if strcasecmp s d.name = 0 then d.id else parse_chip ds s

/-- The `case OptChip` of `main`: the new `match_type` and `match_chip`. The conversion of
the result of `strtoul` to `int` keeps the low 32 bits. -/
def opt_chip (h : Headers) (w : Nat) (driverids : List driverid) (optarg : List Char) :
    Except Stop (Nat × Nat) :=
  if optarg.head?.map isdigit = some true then
    Except.ok (h.V4L2_CHIP_MATCH_I2C_ADDR, strtoul_base0 w optarg % 2 ^ 32)
  else if optarg.take 4 = ['h', 'o', 's', 't'] then
    Except.ok (h.V4L2_CHIP_MATCH_HOST, strtoul_base0 w (optarg.drop 4) % 2 ^ 32)
  else
    let match_chip := parse_chip driverids optarg
    if match_chip = 0 then Except.error (Stop.exit (-1) "unknown driver ID")
    else Except.ok (h.V4L2_CHIP_MATCH_I2C_DRIVER, match_chip)

/-- The chip selected by the command line: the initial values of `match_type` and
`match_chip` in `main` when there is no `--chip` option, the result of `case OptChip`
otherwise. -/
def select_chip (h : Headers) (w : Nat) (driverids : List driverid) :
    Option (List Char) → Except Stop (Nat × Nat)
  | none => Except.ok (h.V4L2_CHIP_MATCH_HOST, 0)
  | some optarg => opt_chip h w driverids optarg

/-! ## The suboptions of `--list-registers` -/

/-- The result of `getsubopt`: its return value, the new `*optionp` and the new
`*valuep`. -/
structure subopt_result where
  opt : Int
  subs : List Char
  value : Option (List Char)
deriving DecidableEq, Repr

/-- The position of `name` in the token list, as `getsubopt` returns it, or -1. -/
def find_token (name : List Char) : List (List Char) → Int → Int
  | [], _ => -1
  | t :: ts, cnt => if t = name then cnt else find_token name ts (cnt + 1)

/-- The function `getsubopt` of the C library: the next suboption ends at the first
comma; its name ends at the first `=`; for a name among the tokens the value is the text
after `=`, or a null pointer without `=`; for any other name the result is -1 and the
value is the whole suboption. -/
def getsubopt (optionp : List Char) (tokens : List (List Char))
    (valuep : Option (List Char)) : subopt_result :=
  if optionp = [] then ⟨-1, optionp, valuep⟩
  else
    let tok := optionp.takeWhile (fun c => c ≠ ',')
    let endp := (optionp.dropWhile (fun c => c ≠ ',')).drop 1
    let name := tok.takeWhile (fun c => c ≠ '=')
    let cnt := find_token name tokens 0
    if cnt = -1 then ⟨-1, endp, some tok⟩
    else if name.length < tok.length then ⟨cnt, endp, some (tok.drop (name.length + 1))⟩
    else ⟨cnt, endp, none⟩

/-- The function `parse_subopt`. The parameter `value` is the pointer `char **value`:
`none` for a null pointer, `some v` for the address of a variable that holds `v`; `main`
passes the address of its variable `value`. -/
def parse_subopt (subs : List Char) (subopts : List (List Char))
    (value : Option (Option (List Char))) : Except Stop subopt_result :=
  let r := getsubopt subs subopts (value.getD none)
  if r.opt = -1 then Except.error (Stop.usage "Invalid suboptions specified")
  else if value = none then Except.error (Stop.usage "No value given to suboption")
  else Except.ok r

/-- The `while` loop of `case OptListRegisters` in `main`, on `reg_min_arg`,
`reg_max_arg` and `value`; every call of `parse_subopt` on a non-empty string shortens
it, and `fuel` bounds the number of calls. -/
def opt_list_registers_loop :
    Nat → List Char → List Char → List Char → Option (List Char) →
      Except Stop (List Char × List Char)
  | 0, _, reg_min_arg, reg_max_arg, _ => Except.ok (reg_min_arg, reg_max_arg)
  | fuel + 1, subs, reg_min_arg, reg_max_arg, value =>
    if subs = [] then Except.ok (reg_min_arg, reg_max_arg)
    else
      match parse_subopt subs [['m', 'i', 'n'], ['m', 'a', 'x']] (some value) with
      | Except.error e => Except.error e
      | Except.ok r =>
        if r.opt = 0 then
          match r.value with
          | none => Except.error Stop.null_string
          | some v => opt_list_registers_loop fuel r.subs v reg_max_arg r.value
        else if r.opt = 1 then
          match r.value with
          | none => Except.error Stop.null_string
          | some v => opt_list_registers_loop fuel r.subs reg_min_arg v r.value
        else opt_list_registers_loop fuel r.subs reg_min_arg reg_max_arg r.value

/-- The `case OptListRegisters` of `main`: the new `reg_min_arg` and `reg_max_arg`. -/
def opt_list_registers (optarg : Option (List Char)) (reg_min_arg reg_max_arg : List Char) :
    Except Stop (List Char × List Char) :=
  match optarg with
  | none => Except.ok (reg_min_arg, reg_max_arg)
  | some subs => opt_list_registers_loop subs.length subs reg_min_arg reg_max_arg none

/-! ## The sections of `main` for `--set-register` and `--list-registers` -/

/-- What the two sections do, in order: their calls of `print_regs` and their system
calls (the lines they print themselves are left out). -/
inductive Action where
  /-- The call `doioctl(fd, VIDIOC_DBG_S_REGISTER, &set_reg, ...)`. -/
  | s_register (reg : v4l2_register)
  /-- The line `register 0x... set to 0x...`. -/
  | register_set (reg val : Nat)
  /-- The call `doioctl(fd, VIDIOC_G_CHIP_IDENT, &chip_id, ...)`. -/
  | g_chip_ident (chip_id : v4l2_chip_ident)
  /-- The call `print_regs(fd, &get_reg, min, max, stride)`. -/
  | print_regs (reg : v4l2_register) (min max : Nat) (stride : Int)
  /-- The line for a chip that was found: `host<n>: ` or `i2c 0x<addr>: `, followed by
  `print_chip(&chip_id)`. -/
  | print_chip (chip_id : v4l2_chip_ident)
deriving DecidableEq, Repr

/-- The `while` loop of the `--scan-chip-idents` section over the host chips. The driver
answers a chip identification request with `g_chip_ident`: `none` for a failure, which
leaves `chip_id` as it is, the new contents of `chip_id` otherwise. The result is the list
of actions and, when the loop has ended within `fuel` requests, the final `chip_id`. -/
def scan_hosts (g_chip_ident : v4l2_chip_ident → Option v4l2_chip_ident) :
    Nat → v4l2_chip_ident → List Action × Option v4l2_chip_ident
  | 0, _ => ([], none)
  | fuel + 1, chip_id =>
    match g_chip_ident chip_id with
    | none => ([Action.g_chip_ident chip_id], some chip_id)
    | some c =>
      if c.ident ≠ 0 then
        let r := scan_hosts g_chip_ident fuel
          { c with match_chip := (c.match_chip + 1) % 2 ^ 32 }
        (Action.g_chip_ident chip_id :: Action.print_chip c :: r.1, r.2)
      else ([Action.g_chip_ident chip_id], some c)

/-- The `for` loop of the `--scan-chip-idents` section over the I2C addresses. -/
def scan_i2c (g_chip_ident : v4l2_chip_ident → Option v4l2_chip_ident) :
    List Nat → v4l2_chip_ident → List Action × v4l2_chip_ident
  | [], chip_id => ([], chip_id)
  | i :: is, chip_id =>
    let chip_id1 := { chip_id with match_chip := i }
    match g_chip_ident chip_id1 with
    | none =>
      let r := scan_i2c g_chip_ident is chip_id1
      (Action.g_chip_ident chip_id1 :: r.1, r.2)
    | some c =>
      let r := scan_i2c g_chip_ident is c
      (Action.g_chip_ident chip_id1 ::
        ((if c.ident ≠ 0 then [Action.print_chip c] else []) ++ r.1), r.2)

/-- The section `if (options[OptScanChipIdents])` of `main`: its actions and the
`chip_id` it leaves behind. -/
def scan_chip_idents (h : Headers) (g_chip_ident : v4l2_chip_ident → Option v4l2_chip_ident)
    (fuel : Nat) (chip_id : v4l2_chip_ident) : List Action × Option v4l2_chip_ident :=
  let r := scan_hosts g_chip_ident fuel
    { chip_id with match_type := h.V4L2_CHIP_MATCH_HOST, match_chip := 0 }
  match r.2 with
  | none => (r.1, none)
  | some c =>
    let r2 := scan_i2c g_chip_ident (List.range 128)
      { c with match_type := h.V4L2_CHIP_MATCH_I2C_ADDR }
    (r.1 ++ r2.1, some r2.2)

/-- The `while` loop of the `--set-register` section over the remaining command-line
arguments. The driver is `ioctl`, which gives its next state and its return value. -/
def set_register_loop {σ : Type} (ioctl : σ → v4l2_register → σ × Int) :
    List (List Char) → σ → v4l2_register → List Action
  | [], _, _ => []
  | arg :: args, s, set_reg =>
    let set_reg1 := { set_reg with val := strtoull arg }
    let r := ioctl s set_reg1
    let set_reg2 := { set_reg1 with reg := (set_reg1.reg + 1) % 2 ^ 64 }
    (Action.s_register set_reg1 ::
      (if r.2 = 0 then [Action.register_set set_reg1.reg set_reg1.val] else [])) ++
      set_register_loop ioctl args r.1 set_reg2

/-- The section `if (options[OptSetRegister])` of `main`; `args` are the command-line
arguments from `optind` on. -/
def set_register {σ : Type} (ioctl : σ → v4l2_register → σ × Int) (s : σ)
    (curr_bd : Option board_list) (match_type match_chip : Nat) (set_reg : v4l2_register)
    (reg_set_arg : List Char) (args : List (List Char)) : Except Stop (List Action) :=
  if args = [] then Except.error (Stop.usage "")
  else
    let set_reg1 : v4l2_register :=
      { set_reg with match_type := match_type, match_chip := match_chip,
                     reg := parse_reg curr_bd reg_set_arg % 2 ^ 64 }
    Except.ok (set_register_loop ioctl args s set_reg1)

/-- The section `if (options[OptListRegisters])` of `main`. The driver answers the chip
identification request with `g_chip_ident`: `none` for a failure, the new contents of
`chip_id` otherwise. The arguments of `print_regs` are converted to `unsigned long`. -/
def list_registers (h : Headers) (w : Nat) (curr_bd : Option board_list)
    (match_type match_chip : Nat) (forcedstride : Int) (reg_min_arg reg_max_arg : List Char)
    (get_reg : v4l2_register) (chip_id : v4l2_chip_ident)
    (g_chip_ident : v4l2_chip_ident → Option v4l2_chip_ident) : List Action :=
  let get_reg1 := { get_reg with match_type := match_type, match_chip := match_chip }
  let stride : Int :=
    if forcedstride ≠ 0 then forcedstride
    else if get_reg1.match_type = h.V4L2_CHIP_MATCH_HOST then 4 else 1
  if reg_min_arg ≠ [] then
    let reg_min := parse_reg curr_bd reg_min_arg % 2 ^ 64
    let reg_max :=
      if reg_max_arg = [] then (reg_min + 0xff) % 2 ^ 64
      else parse_reg curr_bd reg_max_arg % 2 ^ 64
    [Action.print_regs get_reg1 (reg_min % 2 ^ w) (reg_max % 2 ^ w) stride]
  else
    let i2c : List Action :=
      if get_reg1.match_chip = h.I2C_DRIVERID_SAA711X then
        [Action.print_regs get_reg1 0 0xff stride]
      else if get_reg1.match_chip = h.I2C_DRIVERID_SAA717X then
        [Action.print_regs get_reg1 0 0xff stride]
      else if get_reg1.match_chip = h.I2C_DRIVERID_SAA7127 then
        [Action.print_regs get_reg1 0 0x7f stride]
      else if get_reg1.match_chip = h.I2C_DRIVERID_CX25840 then
        [Action.print_regs get_reg1 0 2 stride,
          Action.print_regs get_reg1 0x100 0x15f stride,
          Action.print_regs get_reg1 0x200 0x23f stride,
          Action.print_regs get_reg1 0x400 0x4bf stride,
          Action.print_regs get_reg1 0x800 0x9af stride]
      else if get_reg1.match_chip = h.I2C_DRIVERID_CS5345 then
        [Action.print_regs get_reg1 1 0x10 stride]
      else if get_reg1.match_chip = 0 then []
      else [Action.print_regs get_reg1 0 0xff stride]
    if get_reg1.match_chip ≠ 0 then i2c
    else
      let ident :=
        match g_chip_ident chip_id with
        | none => h.V4L2_IDENT_NONE
        | some c => c.ident
      let host : List Action :=
        if ident = h.V4L2_IDENT_CX23415 ∨ ident = h.V4L2_IDENT_CX23416 then
          [Action.print_regs get_reg1 0x02000000 0x020000ff stride]
        else if ident = h.V4L2_IDENT_CX23418 then
          [Action.print_regs get_reg1 0x02c40000 0x02c409c7 stride]
        else [Action.print_regs get_reg1 0 0xff stride]
      i2c ++ Action.g_chip_ident chip_id :: host

/-- The ranges dumped: the bounds of the calls of `print_regs`, in order. -/
def dumped : List Action → List (Nat × Nat)
  | [] => []
  | Action.print_regs _ min max _ :: as => (min, max) :: dumped as
  | _ :: as => dumped as

/-- The write requests sent to the driver, in order: register and value. -/
def written : List Action → List (Nat × Nat)
  | [] => []
  | Action.s_register reg :: as => (reg.reg, reg.val) :: written as
  | _ :: as => written as

/-- A driver for the examples: a read fails at every address that is a multiple of 3
and gives the address plus 100 everywhere else. -/
def example_ioctl : Unit → v4l2_register → Unit × Option Nat :=
  fun _ r => ((), if r.reg % 3 = 0 then none else some (r.reg + 100))

/-- A driver for the examples with one host chip, a CX23416, and no I2C chip: the
identification of host chip 0 gives the identifier 416, every other request fails. -/
def cx23416_host : v4l2_chip_ident → Option v4l2_chip_ident :=
  fun c => if c.match_type = 0 ∧ c.match_chip = 0 then some { c with ident := 416 } else none

/-- A driver for the examples on which a read fails only at address 1000; the value is
the address plus 100 everywhere else. -/
def example_ioctl_1000 : Unit → v4l2_register → Unit × Option Nat :=
  fun _ r => ((), if r.reg = 1000 then none else some (r.reg + 100))

/-! ## Lemmas on the C library functions -/

lemma strcasecmp_eq_zero_iff (a b : List Char) :
    strcasecmp a b = 0 ↔ a.map tolower = b.map tolower := by
  induction a generalizing b with
  | nil => cases b <;> simp [strcasecmp]
  | cons x xs ih =>
    cases b with
    | nil => simp [strcasecmp]
    | cons y ys =>
      by_cases h : tolower x = tolower y
      · simp [strcasecmp, h, ih]
      · by_cases h2 : tolower x < tolower y <;> simp [strcasecmp, h, h2]

lemma parse_reg_table_eq_find (pfx : Nat) (s : List Char) (l : List board_regs) :
    parse_reg_table pfx s l =
      (l.find? (fun e => decide (s.map tolower = e.name.map tolower) ||
        decide (s.map tolower = (e.name.drop pfx).map tolower))).map (fun e => e.reg) := by
  induction l with
  | nil => simp [parse_reg_table]
  | cons e es ih =>
    by_cases h : s.map tolower = e.name.map tolower ∨
        s.map tolower = (e.name.drop pfx).map tolower
    · have h1 : strcasecmp s e.name = 0 ∨ strcasecmp s (e.name.drop pfx) = 0 := by
        simpa [strcasecmp_eq_zero_iff] using h
      rw [parse_reg_table, if_pos h1, List.find?_cons_of_pos]
      · rfl
      · simpa using h
    · have h1 : ¬ (strcasecmp s e.name = 0 ∨ strcasecmp s (e.name.drop pfx) = 0) := by
        simpa [strcasecmp_eq_zero_iff] using h
      rw [parse_reg_table, if_neg h1, List.find?_cons_of_neg, ih]
      simpa using h

lemma digitVal_digitChar (k : Nat) (hk : k < 10) : digitVal (Nat.digitChar k) = some k := by
  interval_cases k <;> rfl

lemma strto_digits_toDigitsCore (fuel : Nat) :
    ∀ (n : Nat) (ds : List Char), n < fuel →
      strto_digits 10 (Nat.toDigitsCore 10 fuel n ds) 0 = strto_digits 10 ds n := by
  induction fuel with
  | zero => intro n ds h; omega
  | succ fuel ih =>
    intro n ds h
    have hd := digitVal_digitChar (n % 10) (Nat.mod_lt _ (by norm_num))
    have hlt : n % 10 < 10 := Nat.mod_lt _ (by norm_num)
    have hdm := Nat.div_add_mod n 10
    rw [Nat.toDigitsCore]
    by_cases h0 : n / 10 = 0
    · simp only [h0, if_true]
      rw [strto_digits, hd]
      simp only [hlt, if_true, zero_mul, zero_add]
      congr 1
      omega
    · simp only [h0, if_false]
      rw [ih (n / 10) _ (by omega), strto_digits, hd]
      simp only [hlt, if_true]
      congr 1
      omega

lemma toDigitsCore_head (fuel : Nat) :
    ∀ (n : Nat) (ds : List Char), n < fuel → 0 < n →
      ∃ d t, 1 ≤ d ∧ d ≤ 9 ∧ Nat.toDigitsCore 10 fuel n ds = Nat.digitChar d :: t := by
  induction fuel with
  | zero => intro n ds h; omega
  | succ fuel ih =>
    intro n ds h hpos
    have hlt : n % 10 < 10 := Nat.mod_lt _ (by norm_num)
    have hdm := Nat.div_add_mod n 10
    rw [Nat.toDigitsCore]
    by_cases h0 : n / 10 = 0
    · simp only [h0, if_true]
      exact ⟨n % 10, ds, by omega, by omega, rfl⟩
    · simp only [h0, if_false]
      exact ih (n / 10) _ (by omega) (by omega)

lemma strtoul_toDigits (bits n : Nat) (hn : n < 2 ^ bits) :
    strtoul_base0 bits (Nat.toDigits 10 n) = n := by
  by_cases h0 : n = 0
  · subst h0
    have : ¬ (2 ^ bits ≤ 0) := by
      have : 0 < 2 ^ bits := by positivity
      omega
    have e : Nat.toDigits 10 0 = ['0'] := rfl
    rw [e]
    simp [strtoul_base0, isspace, strto_digits, digitVal]
  · obtain ⟨d, t, hd1, hd9, ht⟩ := toDigitsCore_head (n + 1) n [] (by omega) (by omega)
    have hv := strto_digits_toDigitsCore (n + 1) n [] (by omega)
    rw [Nat.toDigits] at *
    rw [ht] at hv
    rw [ht]
    have hv' : strto_digits 10 (Nat.digitChar d :: t) 0 = n := by
      rw [hv]; rfl
    have hnot : ¬ (2 ^ bits ≤ n) := by omega
    interval_cases d <;>
      simp [strtoul_base0, isspace, Nat.digitChar] at hv' ⊢ <;>
      simp [hv', hnot]
lemma toDigits_head_isdigit (n : Nat) :
    ∃ c t, isdigit c = true ∧ Nat.toDigits 10 n = c :: t := by
  by_cases h0 : n = 0
  · subst h0
    exact ⟨'0', [], by decide, rfl⟩
  · obtain ⟨d, t, hd1, hd9, ht⟩ := toDigitsCore_head (n + 1) n [] (by omega) (by omega)
    refine ⟨Nat.digitChar d, t, ?_, ht⟩
    interval_cases d <;> decide

lemma parse_chip_eq_find (driverids : List driverid) (s : List Char) :
    parse_chip driverids s =
      match driverids.find? (fun d => decide (s.map tolower = d.name.map tolower)) with
      | some d => d.id
      | none => 0 := by
  induction driverids with
  | nil => simp [parse_chip]
  | cons d ds ih =>
    by_cases h : s.map tolower = d.name.map tolower
    · have h1 : strcasecmp s d.name = 0 := (strcasecmp_eq_zero_iff _ _).2 h
      rw [parse_chip, if_pos h1, List.find?_cons_of_pos]
      simpa using h
    · have h1 : ¬ strcasecmp s d.name = 0 := fun h' => h ((strcasecmp_eq_zero_iff _ _).1 h')
      rw [parse_chip, if_neg h1, List.find?_cons_of_neg, ih]
      simpa using h

/-! ## Lemmas on `print_regs` -/

lemma next_nowrap (w i n : Nat) (h : i + n < 2 ^ w) :
    (((i : Int) + (n : Int)) % 2 ^ w).toNat = i + n := by
  have h1 : ((i : Int) + (n : Int)) % 2 ^ w = ((i + n : Nat) : Int) := by
    rw [Int.emod_eq_of_lt]
    · push_cast; rfl
    · positivity
    · exact_mod_cast h
  rw [h1, Int.toNat_natCast]

lemma queried_append (l1 l2 : List Event) : queried (l1 ++ l2) = queried l1 ++ queried l2 := by
  induction l1 with
  | nil => rfl
  | cons e es ih => cases e <;> simp [queried, ih]

lemma queried_hdr_row (i mask line : Nat) (stride : Int) :
    queried ((if (i &&& mask) = 0 ∧ line % 32 = 0 then
        [if stride = 4 then Event.header4 else Event.header1] else []) ++
      (if (i &&& mask) = 0 then [Event.row_start i] else [])) = [] := by
  split_ifs <;> simp [queried]

lemma loop_queried {σ : Type} (w : Nat) (hw : w ≤ 64)
    (ioctl : σ → v4l2_register → σ × Option Nat) (min max n mask : Nat)
    (hnw : max + n < 2 ^ w) :
    ∀ (fuel : Nat) (s : σ) (reg : v4l2_register) (i line : Nat),
      queried (print_regs_loop w ioctl min max (n : Int) mask fuel s reg i line).1 =
        ((List.range fuel).map (fun k => i + k * n)).filter
          (fun a => decide (min ≤ a) && decide (a ≤ max)) := by
  intro fuel
  induction fuel with
  | zero => intro s reg i line; simp [print_regs_loop, queried]
  | succ fuel ih =>
    intro s reg i line
    have hrange : (List.range (fuel + 1)).map (fun k => i + k * n) =
        i :: (List.range fuel).map (fun k => (i + n) + k * n) := by
      rw [List.range_succ_eq_map]
      simp only [List.map_cons, List.map_map, zero_mul, add_zero]
      congr 1
      apply List.map_congr_left
      intro k _
      simp only [Function.comp, Nat.succ_eq_add_one]
      ring
    rw [hrange]
    by_cases hi : i ≤ max
    · have hnext : (((i : Int) + (n : Int)) % 2 ^ w).toNat = i + n :=
        next_nowrap w i n (by omega)
      have h64 : i % 2 ^ 64 = i := by
        apply Nat.mod_eq_of_lt
        have : 2 ^ w ≤ 2 ^ 64 := Nat.pow_le_pow_right (by norm_num) hw
        omega
      rw [print_regs_loop, if_pos hi]
      simp only [hnext, h64]
      by_cases hlt : i < min
      · rw [if_pos hlt]
        simp only [List.append_assoc, queried_append, ih]
        rw [← List.append_assoc, ← queried_append, queried_hdr_row]
        have : ¬ (min ≤ i) := by omega
        simp [queried, this]
      · rw [if_neg hlt]
        have hmin : min ≤ i := by omega
        rcases hio : ioctl s { reg with reg := i } with ⟨s1, _ | v⟩
        · simp only [List.append_assoc, queried_append, ih]
          rw [← List.append_assoc, ← queried_append, queried_hdr_row]
          simp [queried, hmin, hi]
        · simp only [List.append_assoc, queried_append, ih]
          rw [← List.append_assoc, ← queried_append, queried_hdr_row]
          simp [queried, hmin, hi]
    · rw [print_regs_loop, if_neg hi]
      have h1 : ¬ (i ≤ max) := hi
      simp only [queried, List.filter_cons, h1, decide_False, Bool.and_false]
      symm
      rw [if_neg (by simp), List.filter_eq_nil_iff]
      intro a ha
      simp only [List.mem_map, List.mem_range] at ha
      obtain ⟨k, _, rfl⟩ := ha
      have : ¬ (i + n + k * n ≤ max) := by omega
      simp [this]

lemma and_not_low (w m x : Nat) (hm : m ≤ w) (hx : x < 2 ^ w) :
    x &&& ((2 ^ w - 1) ^^^ (2 ^ m - 1)) = x - x % 2 ^ m := by
  have h2 : x - x % 2 ^ m = 2 ^ m * (x / 2 ^ m) := by
    have := Nat.div_add_mod x (2 ^ m)
    omega
  rw [h2]
  apply Nat.eq_of_testBit_eq
  intro i
  rw [Nat.testBit_and, Nat.testBit_xor, Nat.testBit_two_pow_sub_one, Nat.testBit_two_pow_sub_one,
    Nat.testBit_mul_pow_two, ← Nat.shiftRight_eq_div_pow, Nat.testBit_shiftRight]
  by_cases h : m ≤ i
  · have e : m + (i - m) = i := by omega
    by_cases hiw : i < w
    · have : ¬ (i < m) := by omega
      simp [h, hiw, this, e]
    · have hb : x.testBit i = false := by
        apply Nat.testBit_eq_false_of_lt
        calc x < 2 ^ w := hx
          _ ≤ 2 ^ i := Nat.pow_le_pow_right (by norm_num) (by omega)
      simp [hb, h, e]
  · have h1 : i < m := by omega
    have h3 : i < w := by omega
    simp [h, h1, h3]

lemma loop_finished {σ : Type} (w : Nat) (ioctl : σ → v4l2_register → σ × Option Nat)
    (min max n mask : Nat) (hn : 1 ≤ n) (hnw : max + n < 2 ^ w) :
    ∀ (fuel : Nat) (s : σ) (reg : v4l2_register) (i line : Nat),
      1 ≤ fuel → max + 2 ≤ i + fuel →
      (print_regs_loop w ioctl min max (n : Int) mask fuel s reg i line).2.isSome = true := by
  intro fuel
  induction fuel with
  | zero => intro s reg i line h; omega
  | succ fuel ih =>
    intro s reg i line _ h2
    by_cases hi : i ≤ max
    · have hnext : (((i : Int) + (n : Int)) % 2 ^ w).toNat = i + n :=
        next_nowrap w i n (by omega)
      rw [print_regs_loop, if_pos hi]
      simp only [hnext]
      by_cases hlt : i < min
      · rw [if_pos hlt]
        exact ih _ _ _ _ (by omega) (by omega)
      · rw [if_neg hlt]
        rcases hio : ioctl s { reg with reg := i % 2 ^ 64 } with ⟨s1, _ | v⟩
        · exact ih _ _ _ _ (by omega) (by omega)
        · exact ih _ _ _ _ (by omega) (by omega)
    · rw [print_regs_loop, if_neg hi]
      rfl

lemma loop_head {σ : Type} (w : Nat) (hw : w ≤ 64)
    (ioctl : σ → v4l2_register → σ × Option Nat) (min max n mask : Nat)
    (hmm : min ≤ max) (hmax : max < 2 ^ w) (hn : 1 ≤ n) :
    ∀ (k fuel : Nat) (s : σ) (reg : v4l2_register) (i line : Nat),
      i + k * n = min → k < fuel →
      (queried (print_regs_loop w ioctl min max (n : Int) mask fuel s reg i line).1).head? =
        some min := by
  intro k
  induction k with
  | zero =>
    intro fuel s reg i line hi hf
    obtain ⟨fuel, rfl⟩ : ∃ f, fuel = f + 1 := ⟨fuel - 1, by omega⟩
    have hi2 : i = min := by omega
    subst hi2
    have h64 : i % 2 ^ 64 = i := by
      apply Nat.mod_eq_of_lt
      have : 2 ^ w ≤ 2 ^ 64 := Nat.pow_le_pow_right (by norm_num) hw
      omega
    rw [print_regs_loop, if_pos hmm, if_neg (lt_irrefl i)]
    simp only [h64]
    rcases hio : ioctl s { reg with reg := i } with ⟨s1, _ | v⟩
    · simp only [List.append_assoc, queried_append]
      rw [← List.append_assoc, ← queried_append, queried_hdr_row]
      simp [queried]
    · simp only [List.append_assoc, queried_append]
      rw [← List.append_assoc, ← queried_append, queried_hdr_row]
      simp [queried]
  | succ k ih =>
    intro fuel s reg i line hi hf
    obtain ⟨fuel, rfl⟩ : ∃ f, fuel = f + 1 := ⟨fuel - 1, by omega⟩
    have hk : (k + 1) * n = k * n + n := by ring
    have hlt : i < min := by omega
    have hnext : (((i : Int) + (n : Int)) % 2 ^ w).toNat = i + n :=
      next_nowrap w i n (by omega)
    rw [print_regs_loop, if_pos (by omega), if_pos hlt]
    simp only [hnext, List.append_assoc, queried_append]
    rw [← List.append_assoc, ← queried_append, queried_hdr_row]
    simp only [queried, List.nil_append]
    exact ih fuel s reg (i + n) _ (by omega) (by omega)


lemma flatMap_block {α : Type} (g : Nat → α) (f : Nat → List α) (n q t : Nat) (ht : t ≤ n) :
    (List.range t).flatMap (fun j =>
        (if n ∣ (q * n + j) then [g (q * n + j)] else []) ++ f (q * n + j)) =
      if t = 0 then [] else g (q * n) :: (List.range t).flatMap (fun j => f (q * n + j)) := by
  induction t with
  | zero => simp
  | succ t ih =>
    rw [List.range_succ, List.flatMap_append, ih (by omega)]
    by_cases h0 : t = 0
    · subst h0; simp
    · have hnd : ¬ (n ∣ q * n + t) := by
        intro h
        have h1 : n ∣ t := (Nat.dvd_add_right (Dvd.intro_left q rfl)).1 h
        have := Nat.le_of_dvd (by omega) h1
        omega
      simp [h0, hnd]

lemma flatMap_blocks {α : Type} (g : Nat → α) (f : Nat → List α) (n : Nat) (q : Nat) :
    (List.range (q * n)).flatMap (fun k => (if n ∣ k then [g k] else []) ++ f k) =
      (List.range q).flatMap (fun r =>
        if n = 0 then [] else g (r * n) :: (List.range n).flatMap (fun j => f (r * n + j))) := by
  induction q with
  | zero => simp
  | succ q ih =>
    rw [List.range_succ, List.flatMap_append, ← ih, Nat.succ_mul, List.range_add,
      List.flatMap_append, List.flatMap_map]
    congr 1
    rw [List.flatMap_singleton]
    exact flatMap_block g f n q n le_rfl

lemma flatMap_rows {α : Type} (g : Nat → α) (f : Nat → List α) (n N : Nat) (hn : 1 ≤ n) :
    (List.range N).flatMap (fun k => (if n ∣ k then [g k] else []) ++ f k) =
      (List.range ((N + n - 1) / n)).flatMap (fun r =>
        g (r * n) :: (List.range (min n (N - r * n))).flatMap (fun j => f (r * n + j))) := by
  have hN := Nat.div_add_mod N n
  have ht : N % n < n := Nat.mod_lt _ (by omega)
  generalize N / n = q at hN
  generalize N % n = t at hN ht
  have hN' : N = q * n + t := by rw [Nat.mul_comm]; omega
  subst hN'
  rw [List.range_add, List.flatMap_append, List.flatMap_map, flatMap_blocks]
  have hblock := flatMap_block g f n q t (by omega)
  simp only [Function.comp] at hblock ⊢
  rw [hblock]
  have hfull : ∀ r ∈ List.range q, (if n = 0 then [] else
      g (r * n) :: (List.range n).flatMap (fun j => f (r * n + j))) =
      g (r * n) :: (List.range (min n (q * n + t - r * n))).flatMap (fun j => f (r * n + j)) := by
    intro r hr
    rw [List.mem_range] at hr
    have h1 : (r + 1) * n ≤ q * n := Nat.mul_le_mul_right n hr
    have h2 : (r + 1) * n = r * n + n := by ring
    have : min n (q * n + t - r * n) = n := by
      apply min_eq_left; omega
    rw [this, if_neg (by omega)]
  by_cases h0 : t = 0
  · subst h0
    have hR : (q * n + 0 + n - 1) / n = q := by
      rw [Nat.add_zero, Nat.add_sub_assoc hn, Nat.mul_comm, Nat.mul_add_div (by omega),
        Nat.div_eq_of_lt (by omega)]
      rfl
    rw [hR]
    simp only [if_true, List.append_nil]
    exact List.flatMap_congr hfull
  · have hR : (q * n + t + n - 1) / n = q + 1 := by
      have : q * n + t + n - 1 = n * (q + 1) + (t - 1) := by
        have : n * (q + 1) = q * n + n := by ring
        omega
      rw [this, Nat.mul_add_div (by omega), Nat.div_eq_of_lt (by omega)]
    rw [hR, List.range_succ, List.flatMap_append, List.flatMap_singleton, if_neg h0]
    congr 1
    · exact List.flatMap_congr hfull
    · have : min n (q * n + t - q * n) = t := by
        rw [Nat.add_sub_cancel_left]; apply min_eq_right; omega
      rw [this]

lemma layout_append (l1 l2 : List Event) : layout (l1 ++ l2) = layout l1 ++ layout l2 := by
  induction l1 with
  | nil => rfl
  | cons e es ih => cases e <;> simp [layout, ih]

lemma printed_append (l1 l2 : List Event) : printed (l1 ++ l2) = printed l1 ++ printed l2 := by
  induction l1 with
  | nil => rfl
  | cons e es ih => cases e <;> simp [printed, ih]

lemma layout_hdr_row (i mask line : Nat) (stride : Int) :
    layout ((if (i &&& mask) = 0 ∧ line % 32 = 0 then
        [if stride = 4 then Event.header4 else Event.header1] else []) ++
      (if (i &&& mask) = 0 then [Event.row_start i] else [])) =
      if (i &&& mask) = 0 then [Slot.row i] else [] := by
  split_ifs <;> simp_all [layout]

lemma printed_hdr_row (i mask line : Nat) (stride : Int) :
    printed ((if (i &&& mask) = 0 ∧ line % 32 = 0 then
        [if stride = 4 then Event.header4 else Event.header1] else []) ++
      (if (i &&& mask) = 0 then [Event.row_start i] else [])) =
      if (i &&& mask) = 0 then [Slot.row i] else [] := by
  split_ifs <;> simp_all [printed]

lemma range_succ_flatMap {α : Type} (F : Nat → List α) (fuel : Nat) :
    (List.range (fuel + 1)).flatMap F = F 0 ++ (List.range fuel).flatMap (fun k => F (k + 1)) := by
  rw [List.range_succ_eq_map, List.flatMap_cons, List.flatMap_map]

lemma loop_layout {σ : Type} (w : Nat) (hw : w ≤ 64)
    (ioctl : σ → v4l2_register → σ × Option Nat) (min max n mask : Nat)
    (hnw : max + n < 2 ^ w) :
    ∀ (fuel : Nat) (s : σ) (reg : v4l2_register) (i line : Nat),
      layout (print_regs_loop w ioctl min max (n : Int) mask fuel s reg i line).1 =
        (List.range fuel).flatMap (fun k =>
          if i + k * n ≤ max then
            (if ((i + k * n) &&& mask) = 0 then [Slot.row (i + k * n)] else []) ++
              [if i + k * n < min then Slot.blank else Slot.query (i + k * n)]
          else []) := by
  intro fuel
  induction fuel with
  | zero => intro s reg i line; simp [print_regs_loop, layout]
  | succ fuel ih =>
    intro s reg i line
    rw [range_succ_flatMap]
    have hshift : ∀ k, i + (k + 1) * n = i + n + k * n := by intro k; ring
    simp only [hshift, zero_mul, add_zero]
    by_cases hi : i ≤ max
    · have hnext : (((i : Int) + (n : Int)) % 2 ^ w).toNat = i + n :=
        next_nowrap w i n (by omega)
      have h64 : i % 2 ^ 64 = i := by
        apply Nat.mod_eq_of_lt
        have : 2 ^ w ≤ 2 ^ 64 := Nat.pow_le_pow_right (by norm_num) hw
        omega
      rw [print_regs_loop, if_pos hi, if_pos hi]
      simp only [hnext, h64]
      by_cases hlt : i < min
      · rw [if_pos hlt, if_pos hlt]
        simp only [List.append_assoc, layout_append, ih]
        rw [← List.append_assoc, ← layout_append, layout_hdr_row]
        simp [layout]
      · rw [if_neg hlt, if_neg hlt]
        rcases hio : ioctl s { reg with reg := i } with ⟨s1, _ | v⟩
        · simp only [List.append_assoc, layout_append, ih]
          rw [← List.append_assoc, ← layout_append, layout_hdr_row]
          simp [layout]
        · simp only [List.append_assoc, layout_append, ih]
          rw [← List.append_assoc, ← layout_append, layout_hdr_row]
          simp [layout]
    · rw [print_regs_loop, if_neg hi, if_neg hi]
      simp only [layout, List.nil_append]
      symm
      rw [List.flatMap_eq_nil_iff]
      intro k _
      rw [if_neg (by omega)]

lemma dvd_mul_iff_div_gcd (M k s : Nat) (hM : 0 < M) :
    M ∣ k * s ↔ M / Nat.gcd M s ∣ k := by
  have hg : 0 < Nat.gcd M s := Nat.gcd_pos_of_pos_left s hM
  have hcop : Nat.Coprime (M / Nat.gcd M s) (s / Nat.gcd M s) := Nat.coprime_div_gcd_div_gcd hg
  have hMe : M = Nat.gcd M s * (M / Nat.gcd M s) := (Nat.mul_div_cancel' (Nat.gcd_dvd_left M s)).symm
  have hse : s = Nat.gcd M s * (s / Nat.gcd M s) := (Nat.mul_div_cancel' (Nat.gcd_dvd_right M s)).symm
  have h1 : M ∣ k * s ↔ M / Nat.gcd M s ∣ k * (s / Nat.gcd M s) := by
    have e : k * s = Nat.gcd M s * (k * (s / Nat.gcd M s)) := by
      conv_lhs => rw [hse]
      ring
    rw [e]
    conv_lhs => lhs; rw [hMe]
    exact Nat.mul_dvd_mul_iff_left hg
  rw [h1]
  exact hcop.dvd_mul_right

lemma flat_to_rows {α : Type} (g : Nat → α) (f : Nat → List α) (P : Nat → Prop)
    [DecidablePred P]
    (start max stride rowlen fuel : Nat) (hs : 1 ≤ stride) (hP : ∀ k, P k ↔ rowlen ∣ k)
    (hrl : 1 ≤ rowlen) (hsle : start ≤ max) (hfuel : max + 2 ≤ fuel) :
    (List.range fuel).flatMap (fun k =>
        if start + k * stride ≤ max then (if P k then [g k] else []) ++ f k else []) =
      (List.range (((max - start) / stride + 1 + rowlen - 1) / rowlen)).flatMap (fun r =>
        g (r * rowlen) ::
          (List.range (min rowlen ((max - start) / stride + 1 - r * rowlen))).flatMap
            (fun j => f (r * rowlen + j))) := by
  rw [← flatMap_rows g f rowlen _ hrl]
  have hN : ∀ k, start + k * stride ≤ max ↔ k < (max - start) / stride + 1 := by
    intro k
    rw [Nat.lt_succ_iff, Nat.le_div_iff_mul_le (by omega)]
    omega
  have hNle : (max - start) / stride + 1 ≤ fuel := by
    have := Nat.div_le_self (max - start) stride
    omega
  obtain ⟨d, rfl⟩ := Nat.exists_eq_add_of_le hNle
  rw [List.range_add, List.flatMap_append, List.flatMap_map]
  refine (congrArg₂ (· ++ ·) ?_ ?_).trans (List.append_nil _)
  swap
  · rw [List.flatMap_eq_nil_iff]
    intro k _
    rw [if_neg]
    rw [hN]; omega
  apply List.flatMap_congr
  intro k hk
  rw [List.mem_range] at hk
  rw [if_pos ((hN k).2 hk)]
  by_cases h : P k
  · rw [if_pos h, if_pos ((hP k).1 h)]
  · rw [if_neg h, if_neg (fun h' => h ((hP k).2 h'))]

lemma flatMap_singleton_map {α β : Type} (h : α → β) (l : List α) :
    l.flatMap (fun x => [h x]) = l.map h := by
  induction l with
  | nil => rfl
  | cons a as ih => simp [ih]

lemma row_start_iff (m min stride k : Nat) :
    (((min - min % 2 ^ m) + k * stride) &&& (2 ^ m - 1)) = 0 ↔
      2 ^ m / Nat.gcd (2 ^ m) stride ∣ k := by
  have h2 : min - min % 2 ^ m = 2 ^ m * (min / 2 ^ m) := by
    have := Nat.div_add_mod min (2 ^ m)
    omega
  rw [Nat.and_pow_two_sub_one_eq_mod, h2, Nat.mul_add_mod, ← Nat.dvd_iff_mod_eq_zero,
    dvd_mul_iff_div_gcd _ _ _ (by positivity)]

lemma rowlen_pos (m stride : Nat) : 1 ≤ 2 ^ m / Nat.gcd (2 ^ m) stride := by
  have hM : 0 < 2 ^ m := by positivity
  have hg : 0 < Nat.gcd (2 ^ m) stride := Nat.gcd_pos_of_pos_left stride hM
  exact (Nat.one_le_div_iff hg).2 (Nat.le_of_dvd hM (Nat.gcd_dvd_left _ _))

lemma rowlen_mul_stride (m stride : Nat) (hs : 1 ≤ stride) :
    2 ^ m ≤ 2 ^ m / Nat.gcd (2 ^ m) stride * stride := by
  have hM : 0 < 2 ^ m := by positivity
  have h := (dvd_mul_iff_div_gcd (2 ^ m) (2 ^ m / Nat.gcd (2 ^ m) stride) stride hM).2
    (dvd_refl _)
  apply Nat.le_of_dvd _ h
  exact Nat.mul_pos (rowlen_pos m stride) (by omega)

lemma loop_first_header {σ : Type} (w : Nat) (ioctl : σ → v4l2_register → σ × Option Nat)
    (min max mask : Nat) (stride : Int) (fuel : Nat) (s : σ) (reg : v4l2_register) (i : Nat)
    (hf : 1 ≤ fuel) (hi : i ≤ max) (hrow : (i &&& mask) = 0) :
    (print_regs_loop w ioctl min max stride mask fuel s reg i 0).1.head? =
      some (if stride = 4 then Event.header4 else Event.header1) := by
  obtain ⟨fuel, rfl⟩ : ∃ f, fuel = f + 1 := ⟨fuel - 1, by omega⟩
  rw [print_regs_loop, if_pos hi]
  by_cases hlt : i < min
  · simp [hlt, hrow]
  · simp only [hlt, if_false]
    rcases ioctl s { reg with reg := i % 2 ^ 64 } with ⟨s1, _ | v⟩ <;> simp [hrow]

lemma rows_layout {σ : Type} (w : Nat) (hw : w ≤ 64)
    (ioctl : σ → v4l2_register → σ × Option Nat) (s : σ) (reg : v4l2_register)
    (m min max stride fuel : Nat) (hmm : min ≤ max) (hs : 1 ≤ stride)
    (hnw : max + stride < 2 ^ w) (hfuel : max + 2 ≤ fuel) (start L : Nat)
    (hstart : start = min - min % 2 ^ m) (hL : L = 2 ^ m / Nat.gcd (2 ^ m) stride) :
    layout (print_regs_loop w ioctl min max (stride : Int) (2 ^ m - 1) fuel s reg start 0).1 =
      (List.range (((max - start) / stride + 1 + L - 1) / L)).flatMap (fun r =>
        Slot.row (start + r * L * stride) ::
          (List.range (Nat.min L ((max - start) / stride + 1 - r * L))).map (fun j =>
            if start + (r * L + j) * stride < min then Slot.blank
            else Slot.query (start + (r * L + j) * stride))) := by
  rw [loop_layout w hw ioctl min max stride _ hnw]
  have hsle : start ≤ max := by omega
  have hP : ∀ k, ((start + k * stride) &&& (2 ^ m - 1)) = 0 ↔ L ∣ k := by
    intro k; rw [hstart, hL]; exact row_start_iff m min stride k
  have hrl : 1 ≤ L := by rw [hL]; exact rowlen_pos m stride
  have h := flat_to_rows (fun k => Slot.row (start + k * stride))
    (fun k => [if start + k * stride < min then Slot.blank
      else Slot.query (start + k * stride)])
    (fun k => ((start + k * stride) &&& (2 ^ m - 1)) = 0) start max stride L fuel hs hP hrl
    hsle hfuel
  simp only [flatMap_singleton_map] at h
  exact h

lemma failed_append (l1 l2 : List Event) : failed (l1 ++ l2) = failed l1 ++ failed l2 := by
  induction l1 with
  | nil => rfl
  | cons e es ih => cases e <;> simp [failed, ih]

lemma failed_hdr (c : Prop) [Decidable c] (stride : Int) :
    failed (if c then [if stride = 4 then Event.header4 else Event.header1] else []) = [] := by
  split_ifs <;> simp [failed]

lemma failed_row (c : Prop) [Decidable c] (i : Nat) :
    failed (if c then [Event.row_start i] else []) = [] := by
  split_ifs <;> simp [failed]

lemma queried_hdr (c : Prop) [Decidable c] (stride : Int) :
    queried (if c then [if stride = 4 then Event.header4 else Event.header1] else []) = [] := by
  split_ifs <;> simp [queried]

lemma queried_row (c : Prop) [Decidable c] (i : Nat) :
    queried (if c then [Event.row_start i] else []) = [] := by
  split_ifs <;> simp [queried]

lemma printed_hdr (c : Prop) [Decidable c] (stride : Int) :
    printed (if c then [if stride = 4 then Event.header4 else Event.header1] else []) = [] := by
  split_ifs <;> simp [printed]

lemma printed_row (c : Prop) [Decidable c] (i : Nat) :
    printed (if c then [Event.row_start i] else []) = if c then [Slot.row i] else [] := by
  split_ifs <;> simp [printed]

lemma loop_step_exit {σ : Type} (w : Nat) (ioctl : σ → v4l2_register → σ × Option Nat)
    (min max : Nat) (stride : Int) (mask fuel : Nat) (s : σ) (reg : v4l2_register)
    (i line : Nat) (hi : ¬ i ≤ max) :
    (print_regs_loop w ioctl min max stride mask (fuel + 1) s reg i line).1 =
      [Event.newline] := by
  rw [print_regs_loop, if_neg hi]

lemma loop_step_blank {σ : Type} (w : Nat) (ioctl : σ → v4l2_register → σ × Option Nat)
    (min max : Nat) (stride : Int) (mask fuel : Nat) (s : σ) (reg : v4l2_register)
    (i line : Nat) (hi : i ≤ max) (hlt : i < min) :
    (print_regs_loop w ioctl min max stride mask (fuel + 1) s reg i line).1 =
      (if (i &&& mask) = 0 ∧ line % 32 = 0 then
          [if stride = 4 then Event.header4 else Event.header1] else []) ++
        ((if (i &&& mask) = 0 then [Event.row_start i] else []) ++
          (Event.blank (2 * stride) ::
            (print_regs_loop w ioctl min max stride mask fuel s reg
              (((i : Int) + stride) % 2 ^ w).toNat
              (if (i &&& mask) = 0 then line + 1 else line)).1)) := by
  rw [print_regs_loop, if_pos hi, if_pos hlt]
  simp only [List.append_assoc, List.cons_append, List.nil_append]

lemma loop_step_fail {σ : Type} (w : Nat) (ioctl : σ → v4l2_register → σ × Option Nat)
    (min max : Nat) (stride : Int) (mask fuel : Nat) (s : σ) (reg : v4l2_register)
    (i line : Nat) (hi : i ≤ max) (hlt : ¬ i < min) (s1 : σ)
    (hio : ioctl s { reg with reg := i % 2 ^ 64 } = (s1, none)) :
    (print_regs_loop w ioctl min max stride mask (fuel + 1) s reg i line).1 =
      (if (i &&& mask) = 0 ∧ line % 32 = 0 then
          [if stride = 4 then Event.header4 else Event.header1] else []) ++
        ((if (i &&& mask) = 0 then [Event.row_start i] else []) ++
          (Event.g_register { reg with reg := i % 2 ^ 64 } ::
            Event.g_register_failed (i % 2 ^ 64) :: Event.usleep ::
            (print_regs_loop w ioctl min max stride mask fuel s1
              { reg with reg := i % 2 ^ 64 }
              (((i : Int) + stride) % 2 ^ w).toNat
              (if (i &&& mask) = 0 then line + 1 else line)).1)) := by
  rw [print_regs_loop, if_pos hi, if_neg hlt]
  simp only [hio, List.append_assoc, List.cons_append, List.nil_append]

lemma loop_step_ok {σ : Type} (w : Nat) (ioctl : σ → v4l2_register → σ × Option Nat)
    (min max : Nat) (stride : Int) (mask fuel : Nat) (s : σ) (reg : v4l2_register)
    (i line : Nat) (hi : i ≤ max) (hlt : ¬ i < min) (s1 : σ) (v : Nat)
    (hio : ioctl s { reg with reg := i % 2 ^ 64 } = (s1, some v)) :
    (print_regs_loop w ioctl min max stride mask (fuel + 1) s reg i line).1 =
      (if (i &&& mask) = 0 ∧ line % 32 = 0 then
          [if stride = 4 then Event.header4 else Event.header1] else []) ++
        ((if (i &&& mask) = 0 then [Event.row_start i] else []) ++
          (Event.g_register { reg with reg := i % 2 ^ 64 } ::
            Event.value (2 * stride) v :: Event.usleep ::
            (print_regs_loop w ioctl min max stride mask fuel s1
              { reg with reg := i % 2 ^ 64, val := v }
              (((i : Int) + stride) % 2 ^ w).toNat
              (if (i &&& mask) = 0 then line + 1 else line)).1)) := by
  rw [print_regs_loop, if_pos hi, if_neg hlt]
  simp only [hio, List.append_assoc, List.cons_append, List.nil_append]

lemma loop_failed_run {σ : Type} (w : Nat) (ioctl : σ → v4l2_register → σ × Option Nat)
    (min max : Nat) (stride : Int) (mask : Nat) :
    ∀ (fuel : Nat) (s : σ) (reg : v4l2_register) (i line : Nat),
      failed (print_regs_loop w ioctl min max stride mask fuel s reg i line).1 =
        ((queried (print_regs_loop w ioctl min max stride mask fuel s reg i line).1).zip
          (run_driver ioctl s reg
            (queried (print_regs_loop w ioctl min max stride mask fuel s reg i line).1))).filterMap
          (fun p => if p.2 = none then some p.1 else none) := by
  intro fuel
  induction fuel with
  | zero => intro s reg i line; simp [print_regs_loop, failed, queried, run_driver]
  | succ fuel ih =>
    intro s reg i line
    by_cases hi : i ≤ max
    · by_cases hlt : i < min
      · rw [loop_step_blank w ioctl min max stride mask fuel s reg i line hi hlt]
        simp only [failed_append, queried_append, failed_hdr, failed_row, queried_hdr,
          queried_row, failed, queried, List.nil_append]
        exact ih _ _ _ _
      · rcases hio : ioctl s { reg with reg := i % 2 ^ 64 } with ⟨s1, _ | v⟩
        · rw [loop_step_fail w ioctl min max stride mask fuel s reg i line hi hlt s1 hio]
          simp only [failed_append, queried_append, failed_hdr, failed_row, queried_hdr,
            queried_row, failed, queried, List.nil_append, run_driver, hio,
            List.zip_cons_cons, List.filterMap_cons, if_true]
          rw [← ih]
        · rw [loop_step_ok w ioctl min max stride mask fuel s reg i line hi hlt s1 v hio]
          simp only [failed_append, queried_append, failed_hdr, failed_row, queried_hdr,
            queried_row, failed, queried, List.nil_append, run_driver, hio,
            List.zip_cons_cons, List.filterMap_cons]
          simp only [reduceCtorEq, if_false]
          rw [← ih]
    · rw [loop_step_exit w ioctl min max stride mask fuel s reg i line hi]
      simp [failed, queried, run_driver]

lemma loop_failed_sub {σ : Type} (w : Nat) (ioctl : σ → v4l2_register → σ × Option Nat)
    (min max : Nat) (stride : Int) (mask : Nat) :
    ∀ (fuel : Nat) (s : σ) (reg : v4l2_register) (i line : Nat) (a : Nat),
      a ∈ failed (print_regs_loop w ioctl min max stride mask fuel s reg i line).1 →
      a ∈ queried (print_regs_loop w ioctl min max stride mask fuel s reg i line).1 := by
  intro fuel s reg i line a h
  rw [loop_failed_run] at h
  rw [List.mem_filterMap] at h
  obtain ⟨p, hp, hp2⟩ := h
  have h1 := (List.of_mem_zip hp).1
  by_cases hn : p.2 = none
  · rw [if_pos hn] at hp2
    injection hp2 with hp2
    rw [← hp2]; exact h1
  · rw [if_neg hn] at hp2
    exact absurd hp2 (by simp)

lemma loop_failed_ge {σ : Type} (w : Nat) (hw : w ≤ 64)
    (ioctl : σ → v4l2_register → σ × Option Nat) (min max n mask : Nat)
    (hnw : max + n < 2 ^ w) (fuel : Nat) (s : σ) (reg : v4l2_register) (i line a : Nat)
    (h : a ∈ failed (print_regs_loop w ioctl min max (n : Int) mask fuel s reg i line).1) :
    i ≤ a := by
  have h1 := loop_failed_sub w ioctl min max (n : Int) mask fuel s reg i line a h
  rw [loop_queried w hw ioctl min max n mask hnw] at h1
  simp only [List.mem_filter, List.mem_map, List.mem_range] at h1
  obtain ⟨⟨k, _, rfl⟩, _⟩ := h1
  omega

lemma loop_printed {σ : Type} (w : Nat) (hw : w ≤ 64)
    (ioctl : σ → v4l2_register → σ × Option Nat) (min max n mask : Nat) (hn : 1 ≤ n)
    (hnw : max + n < 2 ^ w) :
    ∀ (fuel : Nat) (s : σ) (reg : v4l2_register) (i line : Nat) (F : List Nat),
      (∀ a, i ≤ a →
        (a ∈ F ↔ a ∈ failed (print_regs_loop w ioctl min max (n : Int) mask fuel s reg i
          line).1)) →
      printed (print_regs_loop w ioctl min max (n : Int) mask fuel s reg i line).1 =
        (List.range fuel).flatMap (fun k =>
          if i + k * n ≤ max then
            (if ((i + k * n) &&& mask) = 0 then [Slot.row (i + k * n)] else []) ++
              (if i + k * n < min then [Slot.blank]
                else if i + k * n ∈ F then [] else [Slot.cell])
          else []) := by
  intro fuel
  induction fuel with
  | zero => intro s reg i line F _; simp [print_regs_loop, printed]
  | succ fuel ih =>
    intro s reg i line F hF
    rw [range_succ_flatMap]
    have hshift : ∀ k, i + (k + 1) * n = i + n + k * n := by intro k; ring
    simp only [hshift, zero_mul, add_zero]
    by_cases hi : i ≤ max
    · have hnext : (((i : Int) + (n : Int)) % 2 ^ w).toNat = i + n :=
        next_nowrap w i n (by omega)
      have h64 : i % 2 ^ 64 = i := by
        apply Nat.mod_eq_of_lt
        have : 2 ^ w ≤ 2 ^ 64 := Nat.pow_le_pow_right (by norm_num) hw
        omega
      rw [if_pos hi]
      by_cases hlt : i < min
      · have e := loop_step_blank w ioctl min max (n : Int) mask fuel s reg i line hi hlt
        rw [hnext] at e
        rw [e] at hF ⊢
        simp only [failed_append, failed_hdr, failed_row, failed, List.nil_append] at hF
        simp only [printed_append, printed_hdr, printed_row, printed, List.nil_append]
        rw [ih s reg (i + n) _ F (fun a ha => hF a (by omega)), if_pos hlt]
        simp
      · rcases hio : ioctl s { reg with reg := i % 2 ^ 64 } with ⟨s1, _ | v⟩
        · have e := loop_step_fail w ioctl min max (n : Int) mask fuel s reg i line hi hlt s1
            hio
          rw [hnext, h64] at e
          rw [e] at hF ⊢
          simp only [failed_append, failed_hdr, failed_row, failed, List.nil_append] at hF
          simp only [printed_append, printed_hdr, printed_row, printed, List.nil_append]
          have hiF : i ∈ F := (hF i le_rfl).2 (List.mem_cons_self _ _)
          rw [ih s1 _ (i + n) _ F (fun a ha => by
            rw [hF a (by omega), List.mem_cons]
            constructor
            · rintro (h | h)
              · omega
              · exact h
            · intro h; exact Or.inr h), if_neg hlt, if_pos hiF]
          simp
        · have e := loop_step_ok w ioctl min max (n : Int) mask fuel s reg i line hi hlt s1 v
            hio
          rw [hnext, h64] at e
          rw [e] at hF ⊢
          simp only [failed_append, failed_hdr, failed_row, failed, List.nil_append] at hF
          simp only [printed_append, printed_hdr, printed_row, printed, List.nil_append]
          have hiF : ¬ i ∈ F := by
            intro h
            have := loop_failed_ge w hw ioctl min max n mask hnw fuel s1 _ (i + n) _ i
              ((hF i le_rfl).1 h)
            omega
          rw [ih s1 _ (i + n) _ F (fun a ha => hF a (by omega)), if_neg hlt, if_neg hiF]
          simp
    · rw [loop_step_exit w ioctl min max (n : Int) mask fuel s reg i line hi, if_neg hi]
      simp only [printed, List.nil_append]
      symm
      rw [List.flatMap_eq_nil_iff]
      intro k _
      rw [if_neg (by omega)]

lemma rows_printed {σ : Type} (w : Nat) (hw : w ≤ 64)
    (ioctl : σ → v4l2_register → σ × Option Nat) (s : σ) (reg : v4l2_register)
    (m min max stride fuel : Nat) (hmm : min ≤ max) (hs : 1 ≤ stride)
    (hnw : max + stride < 2 ^ w) (hfuel : max + 2 ≤ fuel) (start L : Nat)
    (hstart : start = min - min % 2 ^ m) (hL : L = 2 ^ m / Nat.gcd (2 ^ m) stride) :
    printed (print_regs_loop w ioctl min max (stride : Int) (2 ^ m - 1) fuel s reg start 0).1 =
      (List.range (((max - start) / stride + 1 + L - 1) / L)).flatMap (fun r =>
        Slot.row (start + r * L * stride) ::
          (List.range (Nat.min L ((max - start) / stride + 1 - r * L))).flatMap (fun j =>
            if start + (r * L + j) * stride < min then [Slot.blank]
            else if start + (r * L + j) * stride ∈
              failed (print_regs_loop w ioctl min max (stride : Int) (2 ^ m - 1) fuel s reg
                start 0).1 then []
            else [Slot.cell])) := by
  rw [loop_printed w hw ioctl min max stride _ hs hnw fuel s reg start 0 _ (fun _ _ => Iff.rfl)]
  have hsle : start ≤ max := by omega
  have hP : ∀ k, ((start + k * stride) &&& (2 ^ m - 1)) = 0 ↔ L ∣ k := by
    intro k; rw [hstart, hL]; exact row_start_iff m min stride k
  have hrl : 1 ≤ L := by rw [hL]; exact rowlen_pos m stride
  exact flat_to_rows (fun k => Slot.row (start + k * stride))
    (fun k => if start + k * stride < min then [Slot.blank]
      else if start + k * stride ∈
        failed (print_regs_loop w ioctl min max (stride : Int) (2 ^ m - 1) fuel s reg
          start 0).1 then []
      else [Slot.cell])
    (fun k => ((start + k * stride) &&& (2 ^ m - 1)) = 0) start max stride L fuel hs hP hrl
    hsle hfuel

lemma failed_nil_of_run {σ : Type} (w : Nat) (ioctl : σ → v4l2_register → σ × Option Nat)
    (min max : Nat) (stride : Int) (mask fuel : Nat) (s : σ) (reg : v4l2_register)
    (i line : Nat)
    (hok : ∀ r ∈ run_driver ioctl s reg
      (queried (print_regs_loop w ioctl min max stride mask fuel s reg i line).1), r ≠ none) :
    failed (print_regs_loop w ioctl min max stride mask fuel s reg i line).1 = [] := by
  rw [loop_failed_run, List.filterMap_eq_nil_iff]
  intro p hp
  have h2 := (List.of_mem_zip hp).2
  rw [if_neg (hok p.2 h2)]

lemma rows_printed_ok {σ : Type} (w : Nat) (hw : w ≤ 64)
    (ioctl : σ → v4l2_register → σ × Option Nat) (s : σ) (reg : v4l2_register)
    (m min max stride fuel : Nat) (hmm : min ≤ max) (hs : 1 ≤ stride)
    (hnw : max + stride < 2 ^ w) (hfuel : max + 2 ≤ fuel) (start L : Nat)
    (hstart : start = min - min % 2 ^ m) (hL : L = 2 ^ m / Nat.gcd (2 ^ m) stride)
    (hok : ∀ r ∈ run_driver ioctl s reg
      (queried (print_regs_loop w ioctl min max (stride : Int) (2 ^ m - 1) fuel s reg
        start 0).1), r ≠ none) :
    printed (print_regs_loop w ioctl min max (stride : Int) (2 ^ m - 1) fuel s reg start 0).1 =
      (List.range (((max - start) / stride + 1 + L - 1) / L)).flatMap (fun r =>
        Slot.row (start + r * L * stride) ::
          (List.range (Nat.min L ((max - start) / stride + 1 - r * L))).map (fun j =>
            if start + (r * L + j) * stride < min then Slot.blank else Slot.cell)) := by
  have h := rows_printed w hw ioctl s reg m min max stride fuel hmm hs hnw hfuel start L
    hstart hL
  have hnil := failed_nil_of_run w ioctl min max (stride : Int) (2 ^ m - 1) fuel s reg start 0
    hok
  rw [hnil] at h
  have hite : ∀ (c : Prop) [Decidable c] (a b : Slot),
      (if c then [a] else [b]) = [if c then a else b] := by
    intro c _ a b
    split_ifs <;> rfl
  simp only [List.not_mem_nil, if_false, hite, flatMap_singleton_map] at h
  exact h

lemma rows_facts (m min max stride : Nat) (hs : 1 ≤ stride) (start L : Nat)
    (hstart : start = min - min % 2 ^ m) (hL : L = 2 ^ m / Nat.gcd (2 ^ m) stride) :
    (∀ r, ((start + r * L * stride) &&& (2 ^ m - 1)) = 0) ∧
    (∀ r, r + 1 < ((max - start) / stride + 1 + L - 1) / L →
      Nat.min L ((max - start) / stride + 1 - r * L) = L) ∧
    (∀ r j, start + (r * L + j) * stride < min → r = 0) := by
  have hrl : 1 ≤ L := by rw [hL]; exact rowlen_pos m stride
  refine ⟨?_, ?_, ?_⟩
  · intro r
    rw [hstart, hL]
    exact (row_start_iff m min stride _).2 (Dvd.intro_left r rfl)
  · intro r hr
    have h1 : (r + 2) * L ≤ (max - start) / stride + 1 + L - 1 :=
      (Nat.le_div_iff_mul_le (by omega)).1 hr
    have h2 : (r + 2) * L = r * L + L + L := by ring
    apply Nat.min_eq_left
    omega
  · intro r j h
    by_contra hr
    have hM : 2 ^ m ≤ L * stride := by rw [hL]; exact rowlen_mul_stride m stride hs
    have h1 : min % 2 ^ m < 2 ^ m := Nat.mod_lt _ (by positivity)
    have h2 : min % 2 ^ m ≤ min := Nat.mod_le _ _
    have h3 : 1 * L ≤ r * L := Nat.mul_le_mul_right L (by omega)
    have h4 : (1 * L) * stride ≤ (r * L + j) * stride := Nat.mul_le_mul_right stride (by omega)
    rw [one_mul] at h4
    omega

/-! ## Lemmas on the sections of `main` -/

lemma written_append (l1 l2 : List Action) : written (l1 ++ l2) = written l1 ++ written l2 := by
  induction l1 with
  | nil => rfl
  | cons e es ih => cases e <;> simp [written, ih]

lemma set_register_loop_written {σ : Type} (ioctl : σ → v4l2_register → σ × Int)
    (base : Nat) :
    ∀ (args : List (List Char)) (j : Nat) (s : σ) (set_reg : v4l2_register),
      set_reg.reg = (base + j) % 2 ^ 64 →
      written (set_register_loop ioctl args s set_reg) =
        (args.enumFrom j).map (fun p => ((base + p.1) % 2 ^ 64, strtoull p.2)) := by
  intro args
  induction args with
  | nil => intro j s set_reg _; simp [set_register_loop, written]
  | cons a as ih =>
    intro j s set_reg h
    rw [set_register_loop]
    simp only [written_append, List.enumFrom_cons, List.map_cons]
    rw [ih (j + 1)]
    · have hw : ∀ (b : Prop) [Decidable b] (x y : Nat),
          written (if b then [Action.register_set x y] else []) = [] := by
        intro b _ x y
        split_ifs <;> simp [written]
      simp [written, hw, h]
    · simp only [h]
      omega

/-! ## Theorems -/

/-- C1: `parse_reg` on a board returns the address of the first entry of the main table
whose name equals the string case-insensitively, in full or without its first `pfx`
characters; when the main table has no such entry, the address of the first such entry of
the alternate table; and when neither table has one, the number read by `strtoull`. -/
theorem parse_reg_resolves (bd : board_list) (s : List Char) :
    parse_reg (some bd) s =
      match bd.regs.find? (fun e => decide (s.map tolower = e.name.map tolower) ||
          decide (s.map tolower = (e.name.drop bd.pfx).map tolower)) with
      | some e => e.reg
      | none =>
        match bd.alt_regs.find? (fun e => decide (s.map tolower = e.name.map tolower) ||
            decide (s.map tolower = (e.name.drop bd.pfx).map tolower)) with
        | some e => e.reg
        | none => strtoull s := by
  simp only [parse_reg, parse_reg_table_eq_find]
  cases bd.regs.find? _ <;> simp
  cases bd.alt_regs.find? _ <;> simp

/-- C2: for `min ≤ max`, a stride of at least 1 and `max + stride` below `2 ^ w`,
`print_regs` ends, and the addresses it asks from the driver are, in strictly increasing
order, exactly the `a = (min & ~mask) + k * stride` with `min ≤ a ≤ max`, where `mask` is
`0x0f` for stride 1 and `0x1f` otherwise; this holds for every driver, whatever calls
fail. -/
theorem print_regs_queries {σ : Type} (w : Nat) (hw1 : 32 ≤ w) (hw2 : w ≤ 64)
    (ioctl : σ → v4l2_register → σ × Option Nat) (s : σ) (reg : v4l2_register)
    (min max stride fuel : Nat) (hmm : min ≤ max) (hs : 1 ≤ stride)
    (hnw : max + stride < 2 ^ w) (hfuel : max + 2 ≤ fuel) :
    (print_regs w ioctl fuel s reg min max (stride : Int)).2.isSome = true ∧
    (queried (print_regs w ioctl fuel s reg min max (stride : Int)).1).Sorted (· < ·) ∧
    (∀ a, a ∈ queried (print_regs w ioctl fuel s reg min max (stride : Int)).1 ↔
      (min ≤ a ∧ a ≤ max ∧
        ∃ k, a = (min &&& ((2 ^ w - 1) ^^^ (if stride = 1 then 0x0f else 0x1f))) +
          k * stride)) ∧
    (min &&& ((2 ^ w - 1) ^^^ (if stride = 1 then 0x0f else 0x1f))) =
      min - min % ((if stride = 1 then 0x0f else 0x1f) + 1) := by
  have hmask : (if (stride : Int) > 1 then 0x1f else 0x0f : Nat) =
      (if stride = 1 then 0x0f else 0x1f) := by
    by_cases h : stride = 1
    · subst h; simp
    · have : (stride : Int) > 1 := by omega
      simp [h, this]
  refine ⟨?_, ?_, ?_, ?_⟩
  · exact loop_finished w ioctl min max stride _ hs hnw fuel s reg _ 0 (by omega) (by omega)
  · unfold print_regs
    rw [loop_queried w hw2 ioctl min max stride _ hnw]
    apply List.Pairwise.filter
    rw [List.pairwise_map]
    apply List.Pairwise.imp _ (List.pairwise_lt_range fuel)
    intro a b hab
    have : a * stride < b * stride := Nat.mul_lt_mul_of_pos_right hab (by omega)
    omega
  · intro a
    unfold print_regs
    rw [loop_queried w hw2 ioctl min max stride _ hnw]
    simp only [hmask, List.mem_filter, List.mem_map, List.mem_range, Bool.and_eq_true,
      decide_eq_true_eq]
    constructor
    · rintro ⟨⟨k, _, rfl⟩, h1, h2⟩
      exact ⟨h1, h2, k, rfl⟩
    · rintro ⟨h1, h2, k, rfl⟩
      refine ⟨⟨k, ?_, rfl⟩, h1, h2⟩
      have : k * 1 ≤ k * stride := Nat.mul_le_mul_left k hs
      omega
  · by_cases h : stride = 1
    · simpa [h] using and_not_low w 4 min (by omega) (by omega)
    · simpa [h] using and_not_low w 5 min (by omega) (by omega)

/-- C2, witness: a dump of 3..20 with stride 1 on a driver that fails on every third
address. -/
theorem print_regs_queries_witness :
    (32 ≤ 64 ∧ 64 ≤ 64 ∧ 3 ≤ 20 ∧ 1 ≤ 1 ∧ 20 + 1 < 2 ^ 64 ∧ 20 + 2 ≤ 22) ∧
    queried (print_regs 64 example_ioctl 22 () ⟨0, 0, 0, 0⟩ 3 20 ((1 : Nat) : Int)).1 =
      [3, 4, 5, 6, 7, 8, 9, 10, 11, 12, 13, 14, 15, 16, 17, 18, 19, 20] ∧
    (queried (print_regs 64 example_ioctl 22 () ⟨0, 0, 0, 0⟩ 3 20
      ((1 : Nat) : Int)).1).Sorted (· < ·) :=
  ⟨by decide, by decide,
    (print_regs_queries 64 (by decide) (by decide) example_ioctl () ⟨0, 0, 0, 0⟩ 3 20 1 22
      (by decide) (by decide) (by decide) (by decide)).2.1⟩

/-- C3, as stated it fails: a dump of 1..20 with stride 4 never asks for address 1, its
first query is address 4. -/
theorem print_regs_min_not_queried :
    queried (print_regs 64 example_ioctl 22 () ⟨0, 0, 0, 0⟩ 1 20 4).1 = [4, 8, 12, 16, 20] := by
  decide

/-- C3, amended: for `min ≤ max` and a stride of at least 1 that divides `min & mask`
(always so for stride 1, and for stride 4 when `min` is a multiple of 4), the first address
`print_regs` asks from the driver is `min`. -/
theorem print_regs_first_query {σ : Type} (w : Nat) (hw1 : 32 ≤ w) (hw2 : w ≤ 64)
    (ioctl : σ → v4l2_register → σ × Option Nat) (s : σ) (reg : v4l2_register)
    (min max stride fuel : Nat) (hmm : min ≤ max) (hmax : max < 2 ^ w) (hs : 1 ≤ stride)
    (hdiv : stride ∣ (min &&& (if stride = 1 then 0x0f else 0x1f))) (hfuel : 32 ≤ fuel) :
    (queried (print_regs w ioctl fuel s reg min max (stride : Int)).1).head? = some min := by
  have hmask : (if (stride : Int) > 1 then 0x1f else 0x0f : Nat) =
      (if stride = 1 then 0x0f else 0x1f) := by
    by_cases h : stride = 1
    · subst h; simp
    · have : (stride : Int) > 1 := by omega
      simp [h, this]
  obtain ⟨k, hk⟩ := hdiv
  unfold print_regs
  simp only [hmask]
  by_cases h : stride = 1
  · simp only [h, if_true] at hk ⊢
    have e1 := and_not_low w 4 min (by omega) (by omega)
    have e2 := Nat.and_pow_two_sub_one_eq_mod min 4
    norm_num at e1 e2
    rw [e1]
    have hlt : min % 16 < 16 := Nat.mod_lt _ (by norm_num)
    have hle := Nat.mod_le min 16
    apply loop_head w hw2 ioctl min max 1 _ hmm hmax le_rfl k fuel
    · omega
    · omega
  · simp only [h, if_false] at hk ⊢
    have e1 := and_not_low w 5 min (by omega) (by omega)
    have e2 := Nat.and_pow_two_sub_one_eq_mod min 5
    norm_num at e1 e2
    rw [e1]
    have hlt : min % 32 < 32 := Nat.mod_lt _ (by norm_num)
    have hle := Nat.mod_le min 32
    have hkk : k * 1 ≤ k * stride := Nat.mul_le_mul_left k hs
    have hcomm : stride * k = k * stride := Nat.mul_comm _ _
    apply loop_head w hw2 ioctl min max stride _ hmm hmax hs k fuel
    · omega
    · omega

/-- C3, witness: a dump of 36..200 with stride 4 starts at address 36. -/
theorem print_regs_first_query_witness :
    (32 ≤ 64 ∧ 64 ≤ 64 ∧ 36 ≤ 200 ∧ 200 < 2 ^ 64 ∧ 1 ≤ 4 ∧ 4 ∣ (36 &&& 0x1f) ∧ 32 ≤ 40) ∧
    (queried (print_regs 64 example_ioctl 40 () ⟨0, 0, 0, 0⟩ 36 200
      ((4 : Nat) : Int)).1).head? = some 36 :=
  ⟨by decide,
    print_regs_first_query 64 (by decide) (by decide) example_ioctl () ⟨0, 0, 0, 0⟩ 36 200 4 40
      (by decide) (by decide) (by decide) (by decide) (by decide)⟩

/-- C4, as stated it fails: in a dump of 0..31 with stride 1 on a driver that fails at
every multiple of 3, the first row (not the last one) has 10 cells on `stdout` and not 16,
and the value of address 1 is the first cell of its row. -/
theorem print_regs_failed_query_no_cell :
    printed (print_regs 64 example_ioctl 40 () ⟨0, 0, 0, 0⟩ 0 31 1).1 =
      Slot.row 0 :: List.replicate 10 Slot.cell ++ Slot.row 16 :: List.replicate 11 Slot.cell := by
  decide

/-- C4, amended: for `min ≤ max`, a stride of at least 1 and `max + stride` below `2 ^ w`,
the dump consists of rows; each row starts at an address `a` with `a & mask = 0`, and its
position `j` belongs to the address `a + j * stride`: an empty cell when that address is
below `min` (only in the first row), and otherwise one request to the driver. On `stdout`
such a request gives one cell when it succeeds and nothing when it fails; the failed
requests are those that the driver answers with a negative value, and they are reported
on `stderr`. Every row but the last has `n` positions, with `n = 16` for stride 1 and
`n = 32 / gcd 32 stride` otherwise (8 for stride 4). When no request of the dump fails,
every row but the last has `n` cells on `stdout`, and for strides 1 and 4 the cell of
address `a` is in column `(a & mask) / stride`, below the column header of that stride,
which is the first thing printed. -/
theorem print_regs_rows {σ : Type} (w : Nat) (hw1 : 32 ≤ w) (hw2 : w ≤ 64)
    (ioctl : σ → v4l2_register → σ × Option Nat) (s : σ) (reg : v4l2_register)
    (min max stride fuel : Nat) (hmm : min ≤ max) (hs : 1 ≤ stride)
    (hnw : max + stride < 2 ^ w) (hfuel : max + 2 ≤ fuel) :
    let mask := if stride = 1 then 0x0f else 0x1f
    let n := if stride = 1 then 16 else 32 / Nat.gcd 32 stride
    let start := min &&& ((2 ^ w - 1) ^^^ mask)
    let N := (max - start) / stride + 1
    let R := (N + n - 1) / n
    layout (print_regs w ioctl fuel s reg min max (stride : Int)).1 =
      (List.range R).flatMap (fun r =>
        Slot.row (start + r * n * stride) ::
          (List.range (Nat.min n (N - r * n))).map (fun j =>
            if start + (r * n + j) * stride < min then Slot.blank
            else Slot.query (start + (r * n + j) * stride))) ∧
    printed (print_regs w ioctl fuel s reg min max (stride : Int)).1 =
      (List.range R).flatMap (fun r =>
        Slot.row (start + r * n * stride) ::
          (List.range (Nat.min n (N - r * n))).flatMap (fun j =>
            if start + (r * n + j) * stride < min then [Slot.blank]
            else if start + (r * n + j) * stride ∈
              failed (print_regs w ioctl fuel s reg min max (stride : Int)).1 then []
            else [Slot.cell])) ∧
    failed (print_regs w ioctl fuel s reg min max (stride : Int)).1 =
      ((queried (print_regs w ioctl fuel s reg min max (stride : Int)).1).zip
        (run_driver ioctl s reg
          (queried (print_regs w ioctl fuel s reg min max (stride : Int)).1))).filterMap
        (fun p => if p.2 = none then some p.1 else none) ∧
    ((∀ r ∈ run_driver ioctl s reg
        (queried (print_regs w ioctl fuel s reg min max (stride : Int)).1), r ≠ none) →
      printed (print_regs w ioctl fuel s reg min max (stride : Int)).1 =
        (List.range R).flatMap (fun r =>
          Slot.row (start + r * n * stride) ::
            (List.range (Nat.min n (N - r * n))).map (fun j =>
              if start + (r * n + j) * stride < min then Slot.blank else Slot.cell))) ∧
    (∀ r, ((start + r * n * stride) &&& mask) = 0) ∧
    (∀ r, r + 1 < R → Nat.min n (N - r * n) = n) ∧
    (∀ r j, start + (r * n + j) * stride < min → r = 0) ∧
    (stride = 1 ∨ stride = 4 →
      n * stride = mask + 1 ∧
      (∀ r j, j < n → ((start + (r * n + j) * stride) &&& mask) / stride = j) ∧
      (print_regs w ioctl fuel s reg min max (stride : Int)).1.head? =
        some (if stride = 4 then Event.header4 else Event.header1)) := by
  have hmask : (if (stride : Int) > 1 then 0x1f else 0x0f : Nat) =
      (if stride = 1 then 0x0f else 0x1f) := by
    by_cases h : stride = 1
    · subst h; simp
    · have : (stride : Int) > 1 := by omega
      simp [h, this]
  have hcol : ∀ m start L : Nat, start = min - min % 2 ^ m →
      L * stride = 2 ^ m → ∀ r j, j < L →
      ((start + (r * L + j) * stride) &&& (2 ^ m - 1)) / stride = j := by
    intro m start L hstart hL r j hj
    have h2 : min - min % 2 ^ m = 2 ^ m * (min / 2 ^ m) := by
      have := Nat.div_add_mod min (2 ^ m)
      omega
    have e : start + (r * L + j) * stride = 2 ^ m * (min / 2 ^ m + r) + j * stride := by
      rw [hstart, h2, ← hL]; ring
    have hlt : j * stride < 2 ^ m := by
      rw [← hL]; exact Nat.mul_lt_mul_of_pos_right hj (by omega)
    rw [Nat.and_pow_two_sub_one_eq_mod, e, Nat.mul_add_mod, Nat.mod_eq_of_lt hlt,
      Nat.mul_div_cancel _ (by omega)]
  intro mask n start N R
  have hstart_le : start ≤ min := Nat.and_le_left
  have hhead : ((start &&& mask) = 0) →
      (print_regs w ioctl fuel s reg min max (stride : Int)).1.head? =
        some (if stride = 4 then Event.header4 else Event.header1) := by
    intro hrow
    unfold print_regs
    simp only [hmask]
    have h4 : ((stride : Int) = 4) ↔ stride = 4 := by omega
    have := loop_first_header w ioctl min max mask (stride : Int) fuel s reg start
      (by omega) (by omega) hrow
    simp only [h4] at this
    exact this
  unfold print_regs at hhead ⊢
  simp only [hmask] at hhead ⊢
  by_cases h1 : stride = 1
  · have hstart : start = min - min % 2 ^ 4 := by
      simpa [start, mask, h1] using and_not_low w 4 min (by omega) (by omega)
    have hn : n = 2 ^ 4 / Nat.gcd (2 ^ 4) stride := by simp [n, h1]
    have hm : mask = 2 ^ 4 - 1 := by simp [mask, h1]
    have hf := rows_facts 4 min max stride hs start n hstart hn
    rw [← hm] at hf
    refine ⟨?_, ?_, loop_failed_run w ioctl min max _ _ fuel s reg _ 0, ?_,
      hf.1, hf.2.1, hf.2.2, ?_⟩
    · have := rows_layout w hw2 ioctl s reg 4 min max stride fuel hmm hs hnw hfuel start n
        hstart hn
      rw [← hm] at this
      exact this
    · have := rows_printed w hw2 ioctl s reg 4 min max stride fuel hmm hs hnw hfuel start n
        hstart hn
      rw [← hm] at this
      exact this
    · intro hok
      have := rows_printed_ok w hw2 ioctl s reg 4 min max stride fuel hmm hs hnw hfuel start n
        hstart hn
      rw [← hm] at this
      exact this hok
    · intro _
      have hns : n * stride = 2 ^ 4 := by simp [n, h1]
      have h00 := hf.1 0
      simp only [zero_mul, add_zero] at h00
      refine ⟨by simp [n, mask, h1], ?_, hhead h00⟩
      have := hcol 4 start n hstart hns
      rw [← hm] at this
      exact this
  · have hstart : start = min - min % 2 ^ 5 := by
      simpa [start, mask, h1] using and_not_low w 5 min (by omega) (by omega)
    have hn : n = 2 ^ 5 / Nat.gcd (2 ^ 5) stride := by simp [n, h1]
    have hm : mask = 2 ^ 5 - 1 := by simp [mask, h1]
    have hf := rows_facts 5 min max stride hs start n hstart hn
    rw [← hm] at hf
    refine ⟨?_, ?_, loop_failed_run w ioctl min max _ _ fuel s reg _ 0, ?_,
      hf.1, hf.2.1, hf.2.2, ?_⟩
    · have := rows_layout w hw2 ioctl s reg 5 min max stride fuel hmm hs hnw hfuel start n
        hstart hn
      rw [← hm] at this
      exact this
    · have := rows_printed w hw2 ioctl s reg 5 min max stride fuel hmm hs hnw hfuel start n
        hstart hn
      rw [← hm] at this
      exact this
    · intro hok
      have := rows_printed_ok w hw2 ioctl s reg 5 min max stride fuel hmm hs hnw hfuel start n
        hstart hn
      rw [← hm] at this
      exact this hok
    · intro h4
      have h4 : stride = 4 := by omega
      have hns : n * stride = 2 ^ 5 := by simp [n, h4]
      have h00 := hf.1 0
      simp only [zero_mul, add_zero] at h00
      refine ⟨by simp [n, mask, h4], ?_, hhead h00⟩
      have := hcol 5 start n hstart hns
      rw [← hm] at this
      exact this

/-- C4, witness: a dump of 0..47 with stride 1 on a driver that fails only at register
1000: no request of the dump fails, and the three rows have 16 cells each. -/
theorem print_regs_rows_witness :
    (32 ≤ 64 ∧ 64 ≤ 64 ∧ 0 ≤ 47 ∧ 1 ≤ 1 ∧ 47 + 1 < 2 ^ 64 ∧ 47 + 2 ≤ 50) ∧
    printed (print_regs 64 example_ioctl_1000 50 () ⟨0, 0, 0, 0⟩ 0 47 ((1 : Nat) : Int)).1 =
      Slot.row 0 :: List.replicate 16 Slot.cell ++ Slot.row 16 :: List.replicate 16 Slot.cell ++
        Slot.row 32 :: List.replicate 16 Slot.cell :=
  ⟨by decide,
    ((print_regs_rows 64 (by decide) (by decide) example_ioctl_1000 () ⟨0, 0, 0, 0⟩ 0 47 1 50
      (by decide) (by decide) (by decide) (by decide)).2.2.2.1 (by decide)).trans
      (by decide)⟩

/-- With no explicit `min` and chip number 0, the `--list-registers` section dumps exactly
one range, chosen by the identifier in the answer to its chip identification request:
0x02000000..0x020000ff for CX23415 and CX23416, 0x02c40000..0x02c409c7 for CX23418, and
0..0xff for every other identifier and when the request fails. The request is sent with
`chip_id` as the earlier sections left it. -/
lemma list_registers_dispatch (h : Headers) (h0 : h.driverids_nonzero)
    (hn : h.ident_none_distinct) (w : Nat) (curr_bd : Option board_list)
    (match_type : Nat) (forcedstride : Int) (reg_max_arg : List Char)
    (get_reg : v4l2_register) (chip_id : v4l2_chip_ident)
    (g_chip_ident : v4l2_chip_ident → Option v4l2_chip_ident) :
    dumped (list_registers h w curr_bd match_type 0 forcedstride [] reg_max_arg get_reg
      chip_id g_chip_ident) =
      [match g_chip_ident chip_id with
        | some c =>
          if c.ident = h.V4L2_IDENT_CX23415 ∨ c.ident = h.V4L2_IDENT_CX23416 then
            (0x02000000, 0x020000ff)
          else if c.ident = h.V4L2_IDENT_CX23418 then (0x02c40000, 0x02c409c7)
          else (0, 0xff)
        | none => (0, 0xff)] := by
  obtain ⟨a1, a2, a3, a4, a5⟩ := h0
  obtain ⟨n1, n2, n3⟩ := hn
  unfold list_registers
  simp only [ne_eq, not_true_eq_false, if_false, a1.symm, a2.symm, a3.symm, a4.symm, a5.symm,
    if_true, List.nil_append]
  cases hg : g_chip_ident chip_id with
  | none => simp [dumped, n1, n2, n3]
  | some c =>
    simp only []
    split_ifs <;> simp [dumped]

/-- C5: on a board whose only chip is a CX23416 host chip, `--list-registers` alone asks
for the identifier of host chip 0 and dumps 0x02000000..0x020000ff; after
`--scan-chip-idents` the structure `chip_id` names the I2C address 127, the section sends
its request for that address, the request fails, and 0..0xff is dumped. -/
theorem list_registers_after_scan :
    list_registers linux_headers 64 none 0 0 0 [] [] ⟨0, 0, 0, 0⟩ ⟨0, 0, 0, 0⟩ cx23416_host =
      [Action.g_chip_ident ⟨0, 0, 0, 0⟩,
        Action.print_regs ⟨0, 0, 0, 0⟩ 0x02000000 0x020000ff 4] ∧
    (scan_chip_idents linux_headers cx23416_host 2 ⟨0, 0, 0, 0⟩).2 = some ⟨2, 127, 416, 0⟩ ∧
    list_registers linux_headers 64 none 0 0 0 [] [] ⟨0, 0, 0, 0⟩ ⟨2, 127, 416, 0⟩
        cx23416_host =
      [Action.g_chip_ident ⟨2, 127, 416, 0⟩, Action.print_regs ⟨0, 0, 0, 0⟩ 0 0xff 4] :=
  ⟨rfl, by decide, rfl⟩

/-- C6: with `--set-register` and at least one trailing argument, the section sends one
write request per argument, in order, the `k`-th for register `r + k` modulo `2 ^ 64`
with the value of the `k`-th argument, where `r` is the result of `parse_reg`; this holds
for every driver, whatever requests fail. -/
theorem set_register_autoincrement {σ : Type} (ioctl : σ → v4l2_register → σ × Int) (s : σ)
    (curr_bd : Option board_list) (match_type match_chip : Nat) (set_reg : v4l2_register)
    (reg_set_arg : List Char) (args : List (List Char)) (hargs : args ≠ []) :
    ∃ acts,
      set_register ioctl s curr_bd match_type match_chip set_reg reg_set_arg args =
        Except.ok acts ∧
      written acts =
        args.enum.map (fun p => ((parse_reg curr_bd reg_set_arg + p.1) % 2 ^ 64, strtoull p.2)) := by
  refine ⟨_, by rw [set_register, if_neg hargs], ?_⟩
  exact set_register_loop_written ioctl _ args 0 s _ (by simp)

/-- C6, witness: three values written from register 4 on a driver that refuses
register 5. -/
theorem set_register_autoincrement_witness :
    ([['1'], ['0', 'x', '2'], ['3']] ≠ ([] : List (List Char))) ∧
    ∃ acts,
      set_register (fun (_ : Unit) r => ((), if r.reg = 5 then -1 else 0)) () none 0 0
        ⟨0, 0, 0, 0⟩ ['4'] [['1'], ['0', 'x', '2'], ['3']] = Except.ok acts ∧
      written acts = [(4, 1), (5, 2), (6, 3)] :=
  ⟨by decide,
    (set_register_autoincrement (fun (_ : Unit) r => ((), if r.reg = 5 then -1 else 0)) ()
      none 0 0 ⟨0, 0, 0, 0⟩ ['4'] [['1'], ['0', 'x', '2'], ['3']] (by decide)).imp
      (fun _ h => ⟨h.1, h.2.trans (by decide)⟩)⟩

/-- C7, as stated it fails: the argument `hostx` is neither `host`, nor `host<num>`, nor
does it start with a digit, and it selects the host chip 0, not an I2C driver. -/
theorem select_chip_host_prefix_counterexample :
    select_chip linux_headers 64
      [⟨['c', 'x', '2', '5', '8', '4', '0'], 71⟩, ⟨['s', 'a', 'a', '7', '1', '2', '7'], 72⟩]
      (some ['h', 'o', 's', 't', 'x']) =
    Except.ok (linux_headers.V4L2_CHIP_MATCH_HOST, 0) := by
  rfl

/-- C7, amended: without `--chip`, and with the argument `host`, the target is the host
chip 0, as with `host0`; `host<num>` (a decimal number below `2 ^ w`) selects the host chip
`num`, and every argument that starts with the four characters `host` selects the host
chip whose number `strtoul` reads after them (0 when there is no number); an argument
that starts with a decimal digit selects the I2C address that `strtoul` reads from it
(`num` for the decimal number `num`); every other argument selects the I2C driver with the
ID of the first entry of the table whose name equals it case-insensitively, and the
program ends with `unknown driver ID` when there is no such entry or its ID is 0. Chip
numbers, addresses and IDs are stored in 32 bits. -/
theorem select_chip_forms (h : Headers) (w : Nat) (driverids : List driverid) :
    select_chip h w driverids none = Except.ok (h.V4L2_CHIP_MATCH_HOST, 0) ∧
    select_chip h w driverids (some ['h', 'o', 's', 't']) =
      Except.ok (h.V4L2_CHIP_MATCH_HOST, 0) ∧
    (∀ num, num < 2 ^ w →
      select_chip h w driverids (some (['h', 'o', 's', 't'] ++ Nat.toDigits 10 num)) =
        Except.ok (h.V4L2_CHIP_MATCH_HOST, num % 2 ^ 32)) ∧
    (∀ rest,
      select_chip h w driverids (some (['h', 'o', 's', 't'] ++ rest)) =
        Except.ok (h.V4L2_CHIP_MATCH_HOST, strtoul_base0 w rest % 2 ^ 32)) ∧
    (∀ c cs, isdigit c = true →
      select_chip h w driverids (some (c :: cs)) =
        Except.ok (h.V4L2_CHIP_MATCH_I2C_ADDR, strtoul_base0 w (c :: cs) % 2 ^ 32)) ∧
    (∀ num, num < 2 ^ w →
      select_chip h w driverids (some (Nat.toDigits 10 num)) =
        Except.ok (h.V4L2_CHIP_MATCH_I2C_ADDR, num % 2 ^ 32)) ∧
    (∀ arg, (∀ c cs, arg = c :: cs → isdigit c = false) → ¬ (['h', 'o', 's', 't'] <+: arg) →
      select_chip h w driverids (some arg) =
        match driverids.find? (fun d => decide (arg.map tolower = d.name.map tolower)) with
        | some d =>
          if d.id = 0 then Except.error (Stop.exit (-1) "unknown driver ID")
          else Except.ok (h.V4L2_CHIP_MATCH_I2C_DRIVER, d.id)
        | none => Except.error (Stop.exit (-1) "unknown driver ID")) := by
  have hhost : ∀ rest, select_chip h w driverids (some (['h', 'o', 's', 't'] ++ rest)) =
      Except.ok (h.V4L2_CHIP_MATCH_HOST, strtoul_base0 w rest % 2 ^ 32) := by
    intro rest
    have hd : isdigit 'h' = false := by decide
    simp [select_chip, opt_chip, hd]
  have hdigit : ∀ c cs, isdigit c = true →
      select_chip h w driverids (some (c :: cs)) =
        Except.ok (h.V4L2_CHIP_MATCH_I2C_ADDR, strtoul_base0 w (c :: cs) % 2 ^ 32) := by
    intro c cs hc
    simp [select_chip, opt_chip, hc]
  have hpos : 0 < 2 ^ w := by positivity
  refine ⟨rfl, ?_, ?_, hhost, hdigit, ?_, ?_⟩
  · have := hhost []
    have h0 : strtoul_base0 w [] = 0 := by
      have : ¬ (2 ^ w ≤ 0) := by omega
      simp [strtoul_base0, strto_digits]
    simpa [h0] using this
  · intro num hnum
    rw [hhost, strtoul_toDigits w num hnum]
  · intro num hnum
    obtain ⟨c, t, hc, ht⟩ := toDigits_head_isdigit num
    rw [ht, hdigit c t hc, ← ht, strtoul_toDigits w num hnum]
  · intro arg hnd hnh
    have h1 : ¬ (arg.head?.map isdigit = some true) := by
      cases arg with
      | nil => simp
      | cons c cs => simp [hnd c cs rfl]
    have h2 : ¬ (arg.take 4 = ['h', 'o', 's', 't']) := by
      intro h'
      apply hnh
      rw [List.prefix_iff_eq_take]
      exact h'.symm
    simp only [select_chip, opt_chip, if_neg h1, if_neg h2, parse_chip_eq_find]
    cases driverids.find? (fun d => decide (arg.map tolower = d.name.map tolower)) with
    | none => simp
    | some d => simp

/-- C7, witness: `host12` selects the host chip 12, `0x48` the I2C address 0x48, and
`CX25840` the I2C driver 71. -/
theorem select_chip_forms_witness :
    select_chip linux_headers 64 [⟨['c', 'x', '2', '5', '8', '4', '0'], 71⟩]
        (some ['h', 'o', 's', 't', '1', '2']) = Except.ok (0, 12) ∧
    select_chip linux_headers 64 [⟨['c', 'x', '2', '5', '8', '4', '0'], 71⟩]
        (some ['0', 'x', '4', '8']) = Except.ok (2, 0x48) ∧
    select_chip linux_headers 64 [⟨['c', 'x', '2', '5', '8', '4', '0'], 71⟩]
        (some ['C', 'X', '2', '5', '8', '4', '0']) = Except.ok (1, 71) :=
  ⟨((select_chip_forms linux_headers 64 [⟨['c', 'x', '2', '5', '8', '4', '0'], 71⟩]).2.2.1
      12 (by decide)).trans rfl,
    ((select_chip_forms linux_headers 64 [⟨['c', 'x', '2', '5', '8', '4', '0'], 71⟩]).2.2.2.2.1
      '0' ['x', '4', '8'] (by decide)).trans rfl,
    ((select_chip_forms linux_headers 64 [⟨['c', 'x', '2', '5', '8', '4', '0'], 71⟩]).2.2.2.2.2.2
      ['C', 'X', '2', '5', '8', '4', '0'] (by intro c cs hc; cases hc; decide)
      (by decide)).trans rfl⟩

/-- C8: on the suboption string `min`, `parse_subopt` returns index 0 with a null value
string instead of ending the program, and `main` then assigns the null pointer to
`reg_min_arg`; called as `main` calls it, `parse_subopt` never reports
`No value given to suboption`. -/
theorem parse_subopt_returns_null_value :
    parse_subopt ['m', 'i', 'n'] [['m', 'i', 'n'], ['m', 'a', 'x']] (some none) =
      Except.ok ⟨0, [], none⟩ ∧
    opt_list_registers (some ['m', 'i', 'n']) [] [] = Except.error Stop.null_string ∧
    ∀ (subs : List Char) (subopts : List (List Char)) (v : Option (List Char)),
      parse_subopt subs subopts (some v) ≠
        Except.error (Stop.usage "No value given to suboption") := by
  refine ⟨rfl, rfl, ?_⟩
  intro subs subopts v
  unfold parse_subopt
  simp only [Option.getD_some]
  by_cases h : (getsubopt subs subopts v).opt = -1
  · simp only [h, if_true]
    intro h'
    injection h' with h'
    injection h' with h'
    exact absurd h' (by decide)
  · simp [h]

/-- C9: with the constants of the kernel headers, `--chip=host1 --list-registers` dumps
0..0xff without asking for the host chip identifier, `--chip=72 --list-registers` (an I2C
address) dumps the SAA7127 range 0..0x7f, and `--chip=0 --list-registers` (an I2C address)
dumps the range of the host chip identifier. -/
theorem list_registers_ignores_match_type
    (g_chip_ident : v4l2_chip_ident → Option v4l2_chip_ident) :
    list_registers linux_headers 64 none linux_headers.V4L2_CHIP_MATCH_HOST 1 0 [] []
        ⟨0, 0, 0, 0⟩ ⟨0, 0, 0, 0⟩ g_chip_ident =
      [Action.print_regs ⟨0, 1, 0, 0⟩ 0 0xff 4] ∧
    list_registers linux_headers 64 none linux_headers.V4L2_CHIP_MATCH_I2C_ADDR 72 0 [] []
        ⟨0, 0, 0, 0⟩ ⟨0, 0, 0, 0⟩ g_chip_ident =
      [Action.print_regs ⟨2, 72, 0, 0⟩ 0 0x7f 1] ∧
    list_registers linux_headers 64 none linux_headers.V4L2_CHIP_MATCH_I2C_ADDR 0 0 [] []
        ⟨0, 0, 0, 0⟩ ⟨0, 0, 0, 0⟩ (fun c => some { c with ident := 418 }) =
      [Action.g_chip_ident ⟨0, 0, 0, 0⟩,
        Action.print_regs ⟨2, 0, 0, 0⟩ 0x02c40000 0x02c409c7 1] :=
  ⟨rfl, rfl, rfl⟩

end V4l2Dbg
